import Mathlib

/-!
Verification of the workflow execution engine: a shallow embedding of
`src/workflow/workflow-engine.service.ts`, `src/workflow/services/task-queue.service.ts`
and `src/workflow/services/validation.service.ts`, with theorems checking the
natural-language specification against the code.

Conventions of the embedding:
* JavaScript numbers that the code compares and defaults (`retries`,
  `timeoutMs`, configuration fields) are `Int`; counters that only ever
  increment from 0 (`attempts`) are `Nat` and are coerced where the code
  compares them with an `Int`.
* The asynchronous handler of a task is modelled by an oracle
  `handler : Nat → HandlerResult` giving the behaviour of the handler on its
  n-th invocation (1-based): it either settles after `time` milliseconds with
  an ok/err outcome, or never settles.  `executeWithTimeout` races that
  behaviour against the timeout timer exactly as the promise race does.
* The `EventEmitter` side channel and the handler invocations are modelled by
  an explicit `Trace` threaded through the engine, and the orchestration
  stages of `run` append markers to `Trace.steps` in the order the source
  executes them.
-/

namespace WorkflowEngine

/-- Task status, `TaskStatus` in `workflow.constants`. -/
inductive Status where
  | pending
  | running
  | completed
  | failed
  | skipped
deriving DecidableEq, Repr

/-- Settlement of one promise: either a result or a rejection message
(`getErrorMessage` of the thrown error). -/
inductive Outcome where
  | ok (result : String)
  | err (message : String)
deriving DecidableEq, Repr

/-- Behaviour of a task handler on one invocation: the promise settles with an
outcome after `time` milliseconds, or it never settles. -/
inductive HandlerResult where
  | settles (time : Int) (outcome : Outcome)
  | neverSettles
deriving DecidableEq, Repr

/-- `Task` of `dto/task.interface.ts`.  `handler` gives the behaviour of the
handler function on its n-th invocation (1-based). -/
structure Task where
  id : String
  handler : Nat → HandlerResult
  dependencies : Option (List String) := none
  retries : Option Int := none
  timeoutMs : Option Int := none

/-- `TaskState` of `dto/task.interface.ts` (the `startTime`/`endTime`/`duration`
wall-clock fields are not modelled). -/
structure TaskState where
  id : String
  status : Status
  attempts : Nat
  maxRetries : Int
  error : Option String := none
  result : Option String := none
  dependencies : List String
  dependents : List String
deriving DecidableEq, Repr

/-- `TaskEventType` of `dto/task.enum.ts`. -/
inductive EventType where
  | started
  | completed
  | failed
  | retry
deriving DecidableEq, Repr

/-- `TaskEvent` as built by `sendEvent`: `attempt` is `attempt ?? 0` and
`error` is `error ?? ''` (the timestamp is not modelled). -/
structure Event where
  type : EventType
  taskId : String
  attempt : Nat
  error : String
  result : Option String := none
deriving DecidableEq, Repr

/-- `WorkflowEngineConfig` of `dto/task.interface.ts`. -/
structure WorkflowEngineConfig where
  defaultTimeoutMs : Int
  defaultRetries : Int
  maxConcurrentTasks : Int
  retryDelayMs : Int
deriving DecidableEq, Repr

/-! ## Admission controller: `services/task-queue.service.ts`

Only the running-task set and the concurrency bound matter to the engine
(`canExecuteTask`, `startTask`, `finishTask`); the priority queue side of the
service is never used by `run`. -/

/-- The mutable state of `TaskQueueService` used by the engine: the
`runningTasks` set (a duplicate-free list, reflecting JS `Set` insertion
order) and the configured `maxConcurrentTasks`. -/
structure QueueState where
  runningTasks : List String
  maxConcurrentTasks : Int
deriving DecidableEq, Repr

/-- `TaskQueueService.canExecuteTask`. -/
def canExecuteTask (q : QueueState) (taskId : String) : Bool :=
  if q.runningTasks.contains taskId then false
  else if (q.runningTasks.length : Int) ≥ q.maxConcurrentTasks then false
  else true

/-- The `runningTasks.add(taskId)` effect of `TaskQueueService.startTask`
(JS `Set.add` is a no-op on a present element).  The source function first
throws `ConcurrentExecutionError` unless `canExecuteTask`; `startTaskOp`
below models the full call. -/
def startTaskAdd (q : QueueState) (taskId : String) : QueueState :=
  if q.runningTasks.contains taskId then q
  else { q with runningTasks := q.runningTasks ++ [taskId] }

/-- `TaskQueueService.finishTask`: `runningTasks.delete(taskId)`. -/
def finishTask (q : QueueState) (taskId : String) : QueueState :=
  { q with runningTasks := q.runningTasks.erase taskId }

/-- One external operation on the queue service. -/
inductive QueueOp where
  | start (taskId : String)
  | finish (taskId : String)

/-- The state transition of one queue operation.  `startTask` throws
`ConcurrentExecutionError` (leaving the state unchanged) unless
`canExecuteTask` grants admission. -/
def applyQueueOp (q : QueueState) (op : QueueOp) : QueueState :=
  match op with
  | .start t => if canExecuteTask q t then startTaskAdd q t else q
  | .finish t => finishTask q t

/-- The queue state after a sequence of start/finish operations. -/
def runQueueOps (q : QueueState) (ops : List QueueOp) : QueueState :=
  ops.foldl applyQueueOp q

end WorkflowEngine

namespace WorkflowEngine

/-! ## Validation service: `services/validation.service.ts`

The numeric bounds live in `constants/workflow.constants.ts`, which is
referenced by the service but is not among the repository's files. -/

/-- Modelled from the spec: `WORKFLOW_CONSTANTS.VALIDATION.MAX_TASK_ID_LENGTH`
(the constants module is missing; the spec only bounds the id length). -/
def VALIDATION_MAX_TASK_ID_LENGTH : Nat := 100

/-- Modelled from the spec: `WORKFLOW_CONSTANTS.VALIDATION.MIN_RETRIES`; the
spec says retries are non-negative, matching `@Min(0)` on `TaskDto`. -/
def VALIDATION_MIN_RETRIES : Int := 0

/-- Modelled from the spec: `WORKFLOW_CONSTANTS.VALIDATION.MAX_RETRIES`,
matching `@Max(10)` on `TaskDto`. -/
def VALIDATION_MAX_RETRIES : Int := 10

/-- Modelled from the spec: `WORKFLOW_CONSTANTS.VALIDATION.MIN_TIMEOUT_MS`; the
spec says the timeout is a positive integer, matching `@IsPositive` on
`TaskDto`. -/
def VALIDATION_MIN_TIMEOUT_MS : Int := 1

/-- Modelled from the spec: `WORKFLOW_CONSTANTS.VALIDATION.MAX_TIMEOUT_MS`,
matching `@Max(300000)` on `TaskDto`. -/
def VALIDATION_MAX_TIMEOUT_MS : Int := 300000

/-- Modelled from the spec: `WORKFLOW_CONSTANTS.VALIDATION.MAX_DEPENDENCIES_PER_TASK`
(the workflow size cap is 10 times this value). -/
def VALIDATION_MAX_DEPENDENCIES_PER_TASK : Nat := 10

/-- The class-validator messages for the decorators on `TaskDto`
(`dto/task.dto.ts`): `@Min(0)`/`@Max(10)` on `retries`, `@IsPositive`/
`@Max(300000)` on `timeoutMs`.  In the typed model ids and dependency entries
are always strings and the handler is always a function, so those decorators
cannot fail. -/
def taskDtoErrors (t : Task) : List String :=
  (match t.retries with
   | some r =>
     (if r < 0 then ["retries must not be less than 0"] else []) ++
     (if 10 < r then ["retries must not be greater than 10"] else [])
   | none => []) ++
  (match t.timeoutMs with
   | some m =>
     (if m ≤ 0 then ["timeoutMs must be a positive number"] else []) ++
     (if 300000 < m then ["timeoutMs must not be greater than 300000"] else [])
   | none => [])

/-- The `value.trim().length === 0` test of the validation rules: every
character is whitespace (`String.trim` itself does not reduce in the kernel,
so the equivalent character-level test is used). -/
def isBlankString (s : String) : Bool :=
  s.toList.all Char.isWhitespace

/-- `ValidationService.validateTaskRules`.  The `typeof task.handler !==
'function'` and `Number.isInteger` checks cannot fail in the typed model. -/
def validateTaskRules (t : Task) : List String :=
  (if isBlankString t.id then ["Task ID is required"]
   else if VALIDATION_MAX_TASK_ID_LENGTH < t.id.length then
     ["Task ID too long: maximum " ++ toString VALIDATION_MAX_TASK_ID_LENGTH ++
      " characters allowed"]
   else []) ++
  (match t.retries with
   | some r =>
     (if r < VALIDATION_MIN_RETRIES then
        ["Retries must be an integer >= " ++ toString VALIDATION_MIN_RETRIES] else []) ++
     (if VALIDATION_MAX_RETRIES < r then
        ["Retries cannot exceed " ++ toString VALIDATION_MAX_RETRIES] else [])
   | none => []) ++
  (match t.timeoutMs with
   | some m =>
     (if m < VALIDATION_MIN_TIMEOUT_MS then
        ["Timeout must be an integer >= " ++ toString VALIDATION_MIN_TIMEOUT_MS ++ "ms"]
      else []) ++
     (if VALIDATION_MAX_TIMEOUT_MS < m then
        ["Timeout cannot exceed " ++ toString VALIDATION_MAX_TIMEOUT_MS ++ "ms"] else [])
   | none => []) ++
  (match t.dependencies with
   | some deps =>
     (if VALIDATION_MAX_DEPENDENCIES_PER_TASK < deps.length then
        ["Too many dependencies: maximum " ++
         toString VALIDATION_MAX_DEPENDENCIES_PER_TASK ++ " allowed"] else []) ++
     (deps.map (fun d =>
        (if isBlankString d then ["Dependency must be a non-empty string"] else []) ++
        (if d = t.id then ["Task cannot depend on itself"] else []))).flatten
   | none => [])

/-- `ValidationService.validateTask`: DTO validation errors followed by the
rule errors; the task is valid when both lists are empty. -/
def validateTask (t : Task) : List String :=
  taskDtoErrors t ++ validateTaskRules t

/-- The duplicate-id computation of `validateWorkflowRules`:
`taskIds.filter((id, index) => taskIds.indexOf(id) !== index)`. -/
def duplicateTaskIds (wf : List Task) : List String :=
  let taskIds := wf.map (·.id)
  (taskIds.enum.filter (fun p => !(taskIds.indexOf p.2 == p.1))).map (·.2)

/-- `ValidationService.validateWorkflowRules`. -/
def validateWorkflowRules (wf : List Task) : List String :=
  (let dups := duplicateTaskIds wf
   if dups.isEmpty then []
   else ["Duplicate task IDs found: " ++ String.intercalate ", " dups]) ++
  (if wf.length = 0 then ["Workflow must contain at least one task"] else []) ++
  (if VALIDATION_MAX_DEPENDENCIES_PER_TASK * 10 < wf.length then
     ["Workflow too large: maximum " ++
      toString (VALIDATION_MAX_DEPENDENCIES_PER_TASK * 10) ++ " tasks allowed"]
   else [])

/-- The `WorkflowDto` pass of `validateWorkflow`: when some nested `TaskDto`
fails, class-validator reports one parent error for the `tasks` property whose
own `constraints` are empty, which the service joins into one empty string. -/
def workflowDtoErrors (wf : List Task) : List String :=
  if wf.any (fun t => !(taskDtoErrors t).isEmpty) then [""] else []

/-- `WorkflowValidationResult` of `dto/task.interface.ts` (the per-task
`taskErrors` record is not needed by the claims). -/
structure WorkflowValidationResult where
  isValid : Bool
  errors : List String
deriving DecidableEq, Repr

/-- `ValidationService.validateWorkflow`: the `WorkflowDto` errors, one joined
message per invalid task, then the workflow rule errors. -/
def validateWorkflow (wf : List Task) : WorkflowValidationResult :=
  let errors :=
    workflowDtoErrors wf ++
    (wf.map (fun t =>
       let es := validateTask t
       if es.isEmpty then []
       else ["Task " ++ t.id ++ ": " ++ String.intercalate ", " es])).flatten ++
    validateWorkflowRules wf
  ⟨errors.isEmpty, errors⟩

/-- Errors thrown by `run`: `WorkflowValidationError` and
`InvalidTaskConfigurationError` of `dto/error.interface.ts`, by message. -/
inductive RunError where
  | workflowValidation (message : String)
  | invalidTaskConfiguration (message : String)
deriving DecidableEq, Repr

/-- The first missing dependency reference, in the iteration order of
`validateDependencies`: `(task id, missing dependency id)`. -/
def findMissingDep (taskIds : List String) : List Task → Option (String × String)
  | [] => none
  | t :: rest =>
    match (t.dependencies.getD []).find? (fun d => !taskIds.contains d) with
    | some d => some (t.id, d)
    | none => findMissingDep taskIds rest

/-- `ValidationService.validateDependencies`: throws
`InvalidTaskConfigurationError` on the first dependency id absent from the
workflow (`none` = no throw).  The error message is built by the
`WorkflowError` constructor. -/
def validateDependencies (wf : List Task) : Option RunError :=
  match findMissingDep (wf.map (·.id)) wf with
  | some (tid, d) =>
    some (.invalidTaskConfiguration
      ("Invalid configuration for task " ++ tid ++ ": dependencies = Dependency '" ++
       d ++ "' not found in workflow"))
  | none => none

/-! ## Cycle detection: `validateCircularDependencies`

The recursive `hasCycle`/`findCycle` closures are embedded with an explicit
fuel driving the recursion; `detectFuel` exceeds the number of distinct node
names, and the DFS pushes a new unvisited node at every level, so the fuel
can never run out on the inputs the driver supplies. -/

/-- The `taskMap` lookup: `new Map(workflow.map(t => [t.id, t]))`, where a
duplicated id keeps the last entry. -/
def taskMapLookup (wf : List Task) (v : String) : Option Task :=
  wf.reverse.find? (fun t => t.id == v)

/-- The dependency edges out of node `v`: `taskMap.get(taskId)?.dependencies`
(a name that is not a task id, or a task without dependencies, has none). -/
def depsOf (wf : List Task) (v : String) : List String :=
  match taskMapLookup wf v with
  | some t => t.dependencies.getD []
  | none => []

/-- The `for (const dependency of task.dependencies)` loop inside `hasCycle`:
`child` is the recursive `hasCycle` call at the current recursion stack; the
loop returns on the first child that reports a cycle, threading the grown
`visited` set through the children otherwise. -/
def hasCycleDeps (child : List String → String → Bool × List String) :
    List String → List String → Bool × List String
  | visited, [] => (false, visited)
  | visited, d :: ds =>
    match child visited d with
    | (true, vis) => (true, vis)
    | (false, vis) => hasCycleDeps child vis ds

/-- The `hasCycle` closure of `validateCircularDependencies`: returns whether a
back-edge was found together with the grown `visited` set (`stack` is the
`recursionStack`, restored on return by construction; `fuel` is the explicit
recursion-depth bound, never exhausted on the driver's inputs). -/
def hasCycleAux (wf : List Task) : Nat → List String → List String → String → Bool × List String
  | 0, _, visited, _ => (true, visited)
  | fuel + 1, stack, visited, v =>
    if stack.contains v then (true, visited)
    else if visited.contains v then (false, visited)
    else hasCycleDeps (fun vis d => hasCycleAux wf fuel (v :: stack) vis d)
      (v :: visited) (depsOf wf v)

/-- Fuel bound for the DFS embeddings: more than the number of node names
occurring in the workflow. -/
def detectFuel (wf : List Task) : Nat :=
  wf.length + (wf.map (fun t => (t.dependencies.getD []).length)).sum + 2

/-- The driver loop of `validateCircularDependencies`: `for (const task of
workflow) if (!visited.has(task.id) && hasCycle(task.id)) ...`. -/
def detectCyclesGo (wf : List Task) : List Task → List String → Bool
  | [], _ => false
  | t :: rest, visited =>
    if visited.contains t.id then detectCyclesGo wf rest visited
    else
      match hasCycleAux wf (detectFuel wf) [] visited t.id with
      | (true, _) => true
      | (false, vis) => detectCyclesGo wf rest vis

/-- Whether `validateCircularDependencies` detects a cycle. -/
def detectCycles (wf : List Task) : Bool := detectCyclesGo wf wf []

/-- The dependency loop inside `findCycle`: stops at the first child that
found a cycle, threading `visited` and the shared `path` through the children
otherwise. -/
def findCycleDeps (child : List String → List String → String → Bool × List String × List String) :
    List String → List String → List String → Bool × List String × List String
  | visited, path, [] => (false, visited, path)
  | visited, path, d :: ds =>
    match child visited path d with
    | (true, vis, p) => (true, vis, p)
    | (false, vis, p) => findCycleDeps child vis p ds

/-- The `findCycle` closure of `findCircularDependencyPath`: `(found, visited,
path)`; the node is pushed on the shared `path` and popped on return, and on a
back-edge the path is spliced to the cycle suffix and the hit node appended. -/
def findCycleAux (wf : List Task) :
    Nat → List String → List String → List String → String →
      Bool × List String × List String
  | 0, _, visited, path, _ => (true, visited, path)
  | fuel + 1, stack, visited, path, v =>
    if stack.contains v then
      if path.contains v then (true, visited, path.drop (path.indexOf v) ++ [v])
      else (true, visited, path)
    else if visited.contains v then (false, visited, path)
    else
      match findCycleDeps (fun vis p d => findCycleAux wf fuel (v :: stack) vis p d)
          (v :: visited) (path ++ [v]) (depsOf wf v) with
      | (true, vis, p) => (true, vis, p)
      | (false, vis, p) => (false, vis, p.dropLast)

/-- The driver loop of `findCircularDependencyPath`. -/
def findCyclePathGo (wf : List Task) : List Task → List String → List String → List String
  | [], _, _ => []
  | t :: rest, visited, path =>
    if visited.contains t.id then findCyclePathGo wf rest visited path
    else
      match findCycleAux wf (detectFuel wf) [] visited path t.id with
      | (true, _, p) => p
      | (false, vis, p) => findCyclePathGo wf rest vis p

/-- `ValidationService.findCircularDependencyPath`. -/
def findCircularDependencyPath (wf : List Task) : List String :=
  findCyclePathGo wf wf [] []

/-- `ValidationService.validateCircularDependencies`: throws
`WorkflowValidationError` with the reconstructed cycle path when the DFS finds
a cycle (`none` = no throw). -/
def validateCircularDependencies (wf : List Task) : Option RunError :=
  if detectCycles wf then
    some (.workflowValidation ("Circular dependencies detected: " ++
      String.intercalate " -> " (findCircularDependencyPath wf)))
  else none

end WorkflowEngine

namespace WorkflowEngine

/-! ## The engine: `workflow-engine.service.ts` -/

/-- The stages of `run`, logged in execution order (the validation stages only
once they return without throwing). -/
inductive OrchestratorStep where
  | validatedWorkflow
  | initializedTaskStates
  | checkedCircularDependencies
  | checkedDependencies
  | executedTasks
deriving DecidableEq, Repr

/-- The observable side effects of a run: the `taskEvent` emissions of
`sendEvent`, each handler invocation `(task id, attempt number)` made inside
`executeWithTimeout`, and the completed orchestration stages. -/
structure Trace where
  events : List Event := []
  handlerCalls : List (String × Nat) := []
  steps : List OrchestratorStep := []
deriving DecidableEq, Repr

/-- The `Record<string, TaskState>` map, as an insertion-ordered association
list (assignment to a present key replaces in place). -/
abbrev StateMap := List (String × TaskState)

/-- `taskStates[id]` lookup. -/
def lookupState : StateMap → String → Option TaskState
  | [], _ => none
  | (k, v) :: rest, id => if k = id then some v else lookupState rest id

/-- `taskStates[id] = st` assignment. -/
def setState : StateMap → String → TaskState → StateMap
  | [], id, st => [(id, st)]
  | (k, v) :: rest, id, st =>
    if k = id then (k, st) :: rest else (k, v) :: setState rest id st

/-- The `dependents` computation of `initializeTaskStates`: every other task
whose `dependencies` include this task's id. -/
def computeDependents (wf : List Task) (taskId : String) : List String :=
  (wf.filter (fun other => (other.dependencies.getD []).contains taskId)).map (·.id)

/-- `WorkflowEngineService.initializeTaskStates`. -/
def initializeTaskStates (cfg : WorkflowEngineConfig) (wf : List Task) : StateMap :=
  wf.foldl (fun m t => setState m t.id
    { id := t.id
      status := .pending
      attempts := 0
      maxRetries := t.retries.getD cfg.defaultRetries
      error := none
      result := none
      dependencies := t.dependencies.getD []
      dependents := computeDependents wf t.id }) []

/-- The message of `TaskTimeoutError` (`dto/error.interface.ts`). -/
def timeoutMessage (taskId : String) (timeoutMs : Int) : String :=
  "Task " ++ taskId ++ " timed out after " ++ toString timeoutMs ++ "ms"

/-- `WorkflowEngineService.executeWithTimeout`: the handler promise raced
against a `timeoutMs` timer.  The timer is registered before the handler runs,
so on a tie the timer rejects first; a handler that never settles, or settles
no earlier than the timer, loses the race and the attempt fails with
`TaskTimeoutError` — the work's eventual settlement (if any) hits an already
settled promise and is discarded. -/
def executeWithTimeout (h : HandlerResult) (timeoutMs : Int) (taskId : String) : Outcome :=
  match h with
  | .neverSettles => .err (timeoutMessage taskId timeoutMs)
  | .settles time outcome =>
    if time < timeoutMs then outcome else .err (timeoutMessage taskId timeoutMs)

/-- Result of `executeTaskWithRetries`: the returned boolean, the mutated task
state, and the queue and trace after the call. -/
structure ExecResult where
  success : Bool
  state : TaskState
  queue : QueueState
  trace : Trace
deriving DecidableEq, Repr

/-- The `while (taskState.attempts <= maxRetries)` loop of
`executeTaskWithRetries`, with the loop variant `maxRetries + 1 - attempts`
made explicit as `gas` (the guard `attempts <= maxRetries` holds iff
`gas > 0` under that correspondence).  One iteration: pre-increment
`attempts`, set RUNNING, emit STARTED; the try block asks the queue for
admission (a refusal throws, caught below), starts the task and races the
handler against the timeout; the catch block releases the queue slot, records
the error, and either fails (attempts exhausted, emit FAILED) or emits RETRY,
sleeps `retryDelayMs` (timeless here) and loops. -/
def attemptLoop (t : Task) (maxRetries timeoutMs : Int) (gas : Nat)
    (st : TaskState) (q : QueueState) (tr : Trace) : ExecResult :=
  match gas with
  | 0 => ⟨false, st, q, tr⟩
  | gas + 1 =>
    let st1 : TaskState := { st with attempts := st.attempts + 1, status := .running }
    let tr1 : Trace :=
      { tr with events := tr.events ++ [⟨.started, t.id, st1.attempts, "", none⟩] }
    let attempt : QueueState × Trace × Outcome :=
      if canExecuteTask q t.id then
        let q1 := startTaskAdd q t.id
        let tr2 := { tr1 with handlerCalls := tr1.handlerCalls ++ [(t.id, st1.attempts)] }
        (q1, tr2, executeWithTimeout (t.handler st1.attempts) timeoutMs t.id)
      else
        (q, tr1, .err ("Cannot execute task " ++ t.id ++ ": queue capacity exceeded"))
    match attempt with
    | (q1, tr2, .ok r) =>
      let st2 : TaskState := { st1 with status := .completed, result := some r }
      let q2 := finishTask q1 t.id
      let tr3 := { tr2 with events := tr2.events ++ [⟨.completed, t.id, st2.attempts, "", some r⟩] }
      ⟨true, st2, q2, tr3⟩
    | (q1, tr2, .err msg) =>
      let q2 := finishTask q1 t.id
      let st2 : TaskState := { st1 with error := some msg }
      if maxRetries < (st2.attempts : Int) then
        let st3 : TaskState := { st2 with status := .failed }
        let tr3 := { tr2 with events := tr2.events ++ [⟨.failed, t.id, st3.attempts, msg, none⟩] }
        ⟨false, st3, q2, tr3⟩
      else
        let tr3 := { tr2 with events := tr2.events ++ [⟨.retry, t.id, st2.attempts, msg, none⟩] }
        attemptLoop t maxRetries timeoutMs gas st2 q2 tr3

/-- `WorkflowEngineService.executeTaskWithRetries`. -/
def executeTaskWithRetries (cfg : WorkflowEngineConfig) (t : Task)
    (st : TaskState) (q : QueueState) (tr : Trace) : ExecResult :=
  let maxRetries := t.retries.getD cfg.defaultRetries
  let timeoutMs := t.timeoutMs.getD cfg.defaultTimeoutMs
  attemptLoop t maxRetries timeoutMs (maxRetries + 1 - (st.attempts : Int)).toNat st q tr

/-- `WorkflowEngineService.areDependenciesCompleted`. -/
def areDependenciesCompleted (t : Task) (states : StateMap) : Bool :=
  match t.dependencies with
  | none => true
  | some deps => deps.all (fun d =>
      match lookupState states d with
      | some s => s.status == .completed
      | none => false)

/-- The `for (const dependentId of taskState.dependents)` loop of
`markDependentsAsSkipped`. -/
def markDependentsLoop (failedId : String) :
    List String → StateMap → Trace → StateMap × Trace
  | [], states, tr => (states, tr)
  | depId :: rest, states, tr =>
    match lookupState states depId with
    | some depSt =>
      if depSt.status = .pending then
        markDependentsLoop failedId rest
          (setState states depId { depSt with status := .skipped })
          { tr with events := tr.events ++
              [⟨.failed, depId, 0, "Dependency " ++ failedId ++ " failed", none⟩] }
      else markDependentsLoop failedId rest states tr
    | none => markDependentsLoop failedId rest states tr

/-- `WorkflowEngineService.markDependentsAsSkipped`. -/
def markDependentsAsSkipped (taskId : String) (states : StateMap) (tr : Trace) :
    StateMap × Trace :=
  match lookupState states taskId with
  | none => (states, tr)
  | some st => markDependentsLoop taskId st.dependents states tr

/-- Result of `executeTasks`. -/
structure TasksResult where
  hasFailedTasks : Bool
  states : StateMap
  queue : QueueState
  trace : Trace
deriving DecidableEq, Repr

/-- The `if (task.dependencies && task.dependencies.length > 0)` gate of
`executeTasks` combined with the readiness check: the task is skipped when it
declares a non-empty dependency list not all of whose members are COMPLETED. -/
def depCheckFails (t : Task) (states : StateMap) : Bool :=
  match t.dependencies with
  | some deps => decide (0 < deps.length) && !areDependenciesCompleted t states
  | none => false

/-- The `for (const task of workflow)` loop of
`WorkflowEngineService.executeTasks`. -/
def executeTasksAux (cfg : WorkflowEngineConfig) :
    List Task → Bool → StateMap → QueueState → Trace → TasksResult
  | [], hasFailed, states, q, tr => ⟨hasFailed, states, q, tr⟩
  | t :: rest, hasFailed, states, q, tr =>
    match lookupState states t.id with
    | none => executeTasksAux cfg rest hasFailed states q tr
    | some st =>
      if depCheckFails t states then
        executeTasksAux cfg rest hasFailed
          (setState states t.id { st with status := .skipped }) q
          { tr with events := tr.events ++
              [⟨.failed, t.id, 0, "Dependency not completed", none⟩] }
      else
        let r := executeTaskWithRetries cfg t st q tr
        let states1 := setState states t.id r.state
        if r.success then executeTasksAux cfg rest hasFailed states1 r.queue r.trace
        else
          let marked := markDependentsAsSkipped t.id states1 r.trace
          executeTasksAux cfg rest true marked.1 r.queue marked.2

/-- The overall workflow status (`'COMPLETED' | 'FAILED'`). -/
inductive RunStatus where
  | completed
  | failed
deriving DecidableEq, Repr

/-- `WorkflowResult` of `dto/task.interface.ts` (wall-clock fields omitted). -/
structure WorkflowResult where
  status : RunStatus
  tasks : StateMap
  completedTasks : Nat
  failedTasks : Nat
  totalTasks : Nat
deriving DecidableEq, Repr

/-- `Object.values(taskStates).filter(t => t.status === s).length`. -/
def countStatus (states : StateMap) (s : Status) : Nat :=
  (states.filter (fun p => p.2.status == s)).length

/-- `WorkflowEngineService.run`.  The queue service is constructed with the
same configuration as the engine, so its bound is `cfg.maxConcurrentTasks`
and its running set starts empty.  Stages execute in source order: field
validation (`validateWorkflow`, which throws `WorkflowValidationError` when
invalid), task-state initialization, `validateCircularDependencies`,
`validateDependencies`, then `executeTasks` and the result assembly. -/
def run (cfg : WorkflowEngineConfig) (workflow : List Task) :
    Except RunError WorkflowResult × Trace :=
  let tr : Trace := {}
  let vres := validateWorkflow workflow
  if vres.isValid then
    let tr := { tr with steps := tr.steps ++ [OrchestratorStep.validatedWorkflow] }
    let taskStates := initializeTaskStates cfg workflow
    let tr := { tr with steps := tr.steps ++ [OrchestratorStep.initializedTaskStates] }
    match validateCircularDependencies workflow with
    | some e => (Except.error e, tr)
    | none =>
      let tr := { tr with steps := tr.steps ++ [OrchestratorStep.checkedCircularDependencies] }
      match validateDependencies workflow with
      | some e => (Except.error e, tr)
      | none =>
        let tr := { tr with steps := tr.steps ++ [OrchestratorStep.checkedDependencies] }
        let q : QueueState := ⟨[], cfg.maxConcurrentTasks⟩
        let r := executeTasksAux cfg workflow false taskStates q tr
        (Except.ok
          { status := if r.hasFailedTasks then .failed else .completed
            tasks := r.states
            completedTasks := countStatus r.states .completed
            failedTasks := countStatus r.states .failed
            totalTasks := workflow.length },
         { r.trace with steps := r.trace.steps ++ [OrchestratorStep.executedTasks] })
  else
    (Except.error (.workflowValidation
        ("Workflow validation failed: " ++ String.intercalate "; " vres.errors)), tr)

end WorkflowEngine

namespace WorkflowEngine

/-! ## Admission controller lemmas (C8) -/

theorem canExecuteTask_iff (q : QueueState) (t : String) :
    canExecuteTask q t = true ↔
      ¬q.runningTasks.contains t ∧ (q.runningTasks.length : Int) < q.maxConcurrentTasks := by
  unfold canExecuteTask
  split_ifs with h1 h2
  · simp only [Bool.false_eq_true, false_iff, not_and]
    intro hmem
    exact absurd (by simpa using h1) hmem
  · simp only [Bool.false_eq_true, false_iff, not_and]
    intro _
    omega
  · constructor
    · intro _
      exact ⟨by simpa using h1, by omega⟩
    · intro _
      rfl

theorem finishTask_not_mem (q : QueueState) (t : String)
    (h : ¬q.runningTasks.contains t) : finishTask q t = q := by
  unfold finishTask
  have ht : t ∉ q.runningTasks := by simpa using h
  rw [List.erase_of_not_mem ht]

theorem startTaskAdd_max (q : QueueState) (t : String) :
    (startTaskAdd q t).maxConcurrentTasks = q.maxConcurrentTasks := by
  unfold startTaskAdd
  split <;> rfl

theorem startTaskAdd_length (q : QueueState) (t : String) :
    (startTaskAdd q t).runningTasks.length ≤ q.runningTasks.length + 1 := by
  unfold startTaskAdd
  split
  · omega
  · simp

theorem applyQueueOp_max (q : QueueState) (op : QueueOp) :
    (applyQueueOp q op).maxConcurrentTasks = q.maxConcurrentTasks := by
  cases op with
  | start t =>
    show (if canExecuteTask q t = true then startTaskAdd q t else q).maxConcurrentTasks =
      q.maxConcurrentTasks
    split
    · exact startTaskAdd_max q t
    · rfl
  | finish t => rfl

theorem applyQueueOp_length (q : QueueState) (op : QueueOp)
    (h : (q.runningTasks.length : Int) ≤ q.maxConcurrentTasks) :
    ((applyQueueOp q op).runningTasks.length : Int) ≤ q.maxConcurrentTasks := by
  cases op with
  | start t =>
    show ((if canExecuteTask q t = true then startTaskAdd q t else q).runningTasks.length : Int) ≤
      q.maxConcurrentTasks
    split
    · next hc =>
      have hlt := ((canExecuteTask_iff q t).mp hc).2
      have hlen := startTaskAdd_length q t
      omega
    · exact h
  | finish t =>
    show ((q.runningTasks.erase t).length : Int) ≤ q.maxConcurrentTasks
    have := q.runningTasks.length_erase_le t
    omega

theorem runQueueOps_length_le (ops : List QueueOp) (q : QueueState)
    (h : (q.runningTasks.length : Int) ≤ q.maxConcurrentTasks) :
    ((runQueueOps q ops).runningTasks.length : Int) ≤
      (runQueueOps q ops).maxConcurrentTasks := by
  induction ops generalizing q with
  | nil => exact h
  | cons op rest ih =>
    have hstep := applyQueueOp_length q op h
    have hmax := applyQueueOp_max q op
    exact ih (applyQueueOp q op) (by rw [hmax]; exact hstep)

theorem runQueueOps_max (ops : List QueueOp) (q : QueueState) :
    (runQueueOps q ops).maxConcurrentTasks = q.maxConcurrentTasks := by
  induction ops generalizing q with
  | nil => rfl
  | cons op rest ih =>
    calc (runQueueOps (applyQueueOp q op) rest).maxConcurrentTasks
        = (applyQueueOp q op).maxConcurrentTasks := ih (applyQueueOp q op)
      _ = q.maxConcurrentTasks := applyQueueOp_max q op

/-- C8: admission is granted iff the task is not already running and the
running count is strictly below the configured maximum; releasing an id that
was never acquired is a no-op; and from the initial empty state, no sequence
of `startTask`/`finishTask` operations ever pushes the running count above
`maxConcurrentTasks`. -/
theorem admission_controller_correct :
    (∀ (q : QueueState) (t : String),
        canExecuteTask q t = true ↔
          ¬q.runningTasks.contains t ∧
            (q.runningTasks.length : Int) < q.maxConcurrentTasks) ∧
    (∀ (q : QueueState) (t : String),
        ¬q.runningTasks.contains t → finishTask q t = q) ∧
    (∀ (M : Int) (ops : List QueueOp), 0 ≤ M →
        ((runQueueOps ⟨[], M⟩ ops).runningTasks.length : Int) ≤ M) :=
  ⟨canExecuteTask_iff, finishTask_not_mem, fun M ops hM => by
    have h := runQueueOps_length_le ops ⟨[], M⟩ (by simpa using hM)
    rw [runQueueOps_max ops ⟨[], M⟩] at h
    exact h⟩

/-- Concrete instance of C8: admission for a fresh id with spare capacity,
release of an id never acquired, and a three-start sequence against capacity
two staying within the bound. -/
theorem admission_controller_correct_witness :
    canExecuteTask ⟨["a"], 2⟩ "b" = true ∧
    finishTask ⟨["a"], 2⟩ "b" = ⟨["a"], 2⟩ ∧
    ((runQueueOps ⟨[], 2⟩ [.start "x", .start "y", .start "z"]).runningTasks.length : Int) ≤ 2 :=
  ⟨(admission_controller_correct.1 ⟨["a"], 2⟩ "b").mpr (by decide),
   admission_controller_correct.2.1 ⟨["a"], 2⟩ "b" (by decide),
   admission_controller_correct.2.2 2 [.start "x", .start "y", .start "z"] (by decide)⟩

end WorkflowEngine

namespace WorkflowEngine

/-! ## Concrete inputs used by counterexamples and witnesses -/

/-- A configuration with the spec's example defaults (30s timeout, 3 retries,
10 concurrent tasks, 100ms retry delay). -/
def cfgDefault : WorkflowEngineConfig := ⟨30000, 3, 10, 100⟩

/-- A handler that settles immediately and successfully on every invocation. -/
def okHandler : Nat → HandlerResult := fun _ => .settles 0 (.ok "ok")

/-- A two-task workflow whose dependency graph is the cycle a → b → a. -/
def wfCycle2 : List Task :=
  [{ id := "a", handler := okHandler, dependencies := some ["b"] },
   { id := "b", handler := okHandler, dependencies := some ["a"] }]

/-- A one-task workflow whose dependency graph is the self-loop a → a. -/
def wfSelfDep : List Task :=
  [{ id := "a", handler := okHandler, dependencies := some ["a"] }]

/-- Whether the character list `p` is a prefix of the second list. -/
def startsWithChars : List Char → List Char → Bool
  | [], _ => true
  | _ :: _, [] => false
  | a :: as, b :: bs => a == b && startsWithChars as bs

/-- Whether the character list `p` occurs contiguously in the second list. -/
def containsChars (p : List Char) : List Char → Bool
  | [] => startsWithChars p []
  | c :: cs => startsWithChars p (c :: cs) || containsChars p cs

/-- Whether `pattern` occurs as a substring of `s` (an executable substring
test, used to state what an error message does or does not include). -/
def stringIncludes (s pattern : String) : Bool :=
  containsChars pattern.toList s.toList

end WorkflowEngine

namespace WorkflowEngine

/-! ## Validation-stage claims: C10, C9, and the C1 counterexample -/

/-- C10: for the empty task list, `run` does not produce a `WorkflowResult`
with `totalTasks = 0` — `validateWorkflowRules` rejects a workflow containing
no tasks, so `run` throws `WorkflowValidationError`. -/
theorem run_empty_workflow_rejected (cfg : WorkflowEngineConfig) :
    (run cfg []).1 = Except.error (.workflowValidation
      "Workflow validation failed: Workflow must contain at least one task") := rfl

/-- C9 (amended): when any validation stage fails, `run` propagates the error
before executing any task — no event is emitted and no handler is invoked —
but when field validation passed (so the error came from the cycle or
missing-dependency check), the per-task states have already been initialized
when the error is thrown. -/
theorem run_validation_error_propagates_before_execution
    (cfg : WorkflowEngineConfig) (wf : List Task) (e : RunError) (tr : Trace)
    (h : run cfg wf = (Except.error e, tr)) :
    tr.events = [] ∧ tr.handlerCalls = [] ∧
      ((validateWorkflow wf).isValid = true →
        OrchestratorStep.initializedTaskStates ∈ tr.steps) := by
  unfold run at h
  by_cases hv : (validateWorkflow wf).isValid
  · simp only [hv, if_true] at h
    cases hcyc : validateCircularDependencies wf with
    | some e2 =>
      rw [hcyc] at h
      cases h
      exact ⟨rfl, rfl, fun _ => by simp⟩
    | none =>
      rw [hcyc] at h
      cases hdep : validateDependencies wf with
      | some e3 =>
        rw [hdep] at h
        cases h
        exact ⟨rfl, rfl, fun _ => by simp⟩
      | none =>
        rw [hdep] at h
        simp at h
  · simp only [hv] at h
    simp only [Bool.false_eq_true, if_false] at h
    cases h
    exact ⟨rfl, rfl, fun hcontra => absurd hcontra (by simp [hv])⟩

/-- C9, counterexample to the claim as stated: on the cyclic two-task
workflow, `run` throws the cycle `WorkflowValidationError`, yet the stage log
shows `initializeTaskStates` already ran (and produced a non-empty state map)
before `validateCircularDependencies` threw — so TaskState entries are
created before the error. -/
theorem run_cycle_error_after_state_initialization :
    (run cfgDefault wfCycle2).1 = Except.error (.workflowValidation
      "Circular dependencies detected: a -> b -> a") ∧
    (run cfgDefault wfCycle2).2.steps =
      [OrchestratorStep.validatedWorkflow, OrchestratorStep.initializedTaskStates] ∧
    initializeTaskStates cfgDefault wfCycle2 ≠ [] :=
  ⟨rfl, rfl, by decide⟩

/-- Concrete instance of C9: the cyclic two-task workflow errors without any
event or handler call, with the task states initialized first. -/
theorem run_validation_error_propagates_before_execution_witness :
    (run cfgDefault wfCycle2).2.events = [] ∧
    (run cfgDefault wfCycle2).2.handlerCalls = [] ∧
    OrchestratorStep.initializedTaskStates ∈ (run cfgDefault wfCycle2).2.steps := by
  have h : run cfgDefault wfCycle2 =
      (Except.error (.workflowValidation "Circular dependencies detected: a -> b -> a"),
       (run cfgDefault wfCycle2).2) := rfl
  have := run_validation_error_propagates_before_execution cfgDefault wfCycle2 _ _ h
  exact ⟨this.1, this.2.1, this.2.2 (by rfl)⟩

/-- C1, counterexample to the "message includes the cycle path" part: the
one-task workflow with the self-loop a → a has a cyclic dependency graph, but
field validation rejects it first ("Task cannot depend on itself"), so the
thrown `WorkflowValidationError` does not include the cycle path `a -> a`. -/
theorem run_self_loop_error_lacks_cycle_path :
    (run cfgDefault wfSelfDep).1 = Except.error (.workflowValidation
      "Workflow validation failed: Task a: Task cannot depend on itself") ∧
    stringIncludes "Workflow validation failed: Task a: Task cannot depend on itself"
      "a -> a" = false :=
  ⟨rfl, by decide⟩

end WorkflowEngine

namespace WorkflowEngine

/-! ## Retry-loop lemmas (C2, C5) -/

theorem queue_roundtrip (q : QueueState) (t : String)
    (h : canExecuteTask q t = true) : finishTask (startTaskAdd q t) t = q := by
  have hnm : ¬q.runningTasks.contains t := ((canExecuteTask_iff q t).mp h).1
  have hmem : t ∉ q.runningTasks := by simpa using hnm
  unfold startTaskAdd finishTask
  rw [if_neg hnm]
  simp only [List.erase_append_right _ hmem]
  simp

/-- The handler invocations `(id, a + 1), ..., (id, a + g)` recorded by `g`
consecutive attempts starting from attempt count `a`. -/
def callsFrom (id : String) (a : Nat) : Nat → List (String × Nat)
  | 0 => []
  | g + 1 => (id, a + 1) :: callsFrom id (a + 1) g

theorem callsFrom_length (id : String) : ∀ (g a : Nat), (callsFrom id a g).length = g := by
  intro g
  induction g with
  | zero => intro a; rfl
  | succ g ih => intro a; simp [callsFrom, ih (a + 1)]

theorem attemptLoop_fail_all (t : Task) (maxR tmo : Int) (msg : Nat → String) :
    ∀ (gas : Nat) (st : TaskState) (q : QueueState) (tr : Trace),
      1 ≤ gas →
      canExecuteTask q t.id = true →
      (st.attempts : Int) + gas = maxR + 1 →
      (∀ n, st.attempts < n → n ≤ st.attempts + gas →
        executeWithTimeout (t.handler n) tmo t.id = .err (msg n)) →
      attemptLoop t maxR tmo gas st q tr =
        ⟨false,
         { st with attempts := st.attempts + gas, status := .failed,
                   error := some (msg (st.attempts + gas)) },
         q,
         (attemptLoop t maxR tmo gas st q tr).trace⟩ ∧
      (attemptLoop t maxR tmo gas st q tr).trace.handlerCalls =
        tr.handlerCalls ++ callsFrom t.id st.attempts gas := by
  intro gas
  induction gas with
  | zero => intro st q tr h1g; omega
  | succ g ih =>
    intro st q tr _ hq hg hfail
    have h1 : executeWithTimeout (t.handler (st.attempts + 1)) tmo t.id =
        .err (msg (st.attempts + 1)) := hfail _ (by omega) (by omega)
    by_cases hg0 : g = 0
    · subst hg0
      have hmax : maxR < ((st.attempts + 1 : Nat) : Int) := by push_cast; omega
      simp only [attemptLoop, hq, if_true, h1, hmax, if_pos, queue_roundtrip q t.id hq,
        callsFrom]
      exact ⟨trivial, trivial⟩
    · have hnomax : ¬(maxR < ((st.attempts + 1 : Nat) : Int)) := by push_cast; omega
      simp only [attemptLoop, hq, if_true, h1, hnomax, if_neg, if_false,
        queue_roundtrip q t.id hq]
      obtain ⟨ihEq, ihCalls⟩ := ih
        { st with attempts := st.attempts + 1, status := Status.running,
                  error := some (msg (st.attempts + 1)) } q
        { tr with
            events := tr.events ++
              [⟨EventType.started, t.id, st.attempts + 1, "", none⟩] ++
              [⟨EventType.retry, t.id, st.attempts + 1, msg (st.attempts + 1), none⟩],
            handlerCalls := tr.handlerCalls ++ [(t.id, st.attempts + 1)] }
        (by omega) hq
        (by show ((st.attempts + 1 : Nat) : Int) + g = maxR + 1
            push_cast at hg ⊢
            omega)
        (fun n hn1 hn2 => hfail n (by simp only [] at hn1; omega)
          (by simp only [] at hn2; omega))
      refine ⟨?_, ?_⟩
      · rw [ihEq]
        have harith : st.attempts + 1 + g = st.attempts + (g + 1) := by omega
        simp only [harith]
      · rw [ihCalls]
        simp [callsFrom, List.append_assoc]

theorem attemptLoop_succeeds (t : Task) (maxR tmo : Int) (msg : Nat → String) (res : String) :
    ∀ (gas : Nat) (st : TaskState) (q : QueueState) (tr : Trace) (k : Nat),
      canExecuteTask q t.id = true →
      (st.attempts : Int) + gas = maxR + 1 →
      st.attempts < k → k ≤ st.attempts + gas →
      (∀ n, st.attempts < n → n < k →
        executeWithTimeout (t.handler n) tmo t.id = .err (msg n)) →
      executeWithTimeout (t.handler k) tmo t.id = .ok res →
      (attemptLoop t maxR tmo gas st q tr).success = true ∧
      (attemptLoop t maxR tmo gas st q tr).state.status = .completed ∧
      (attemptLoop t maxR tmo gas st q tr).state.attempts = k ∧
      (attemptLoop t maxR tmo gas st q tr).state.result = some res ∧
      ((attemptLoop t maxR tmo gas st q tr)).queue = q ∧
      (attemptLoop t maxR tmo gas st q tr).trace.handlerCalls =
        tr.handlerCalls ++ callsFrom t.id st.attempts (k - st.attempts) := by
  intro gas
  induction gas with
  | zero => intro st q tr k _ _ hk1 hk2 _ _; omega
  | succ g ih =>
    intro st q tr k hq hg hk1 hk2 hfail hsucc
    by_cases hk : k = st.attempts + 1
    · subst hk
      simp only [attemptLoop, hq, if_true, hsucc, queue_roundtrip q t.id hq, callsFrom,
        Nat.add_sub_cancel_left]
      exact ⟨trivial, trivial, trivial, trivial, trivial, trivial⟩
    · have h1 : executeWithTimeout (t.handler (st.attempts + 1)) tmo t.id =
          .err (msg (st.attempts + 1)) := hfail _ (by omega) (by omega)
      have hnomax : ¬(maxR < ((st.attempts + 1 : Nat) : Int)) := by push_cast; omega
      simp only [attemptLoop, hq, if_true, h1, hnomax, if_neg, if_false,
        queue_roundtrip q t.id hq]
      have hrec := ih
        { st with attempts := st.attempts + 1, status := Status.running,
                  error := some (msg (st.attempts + 1)) } q
        { tr with
            events := tr.events ++
              [⟨EventType.started, t.id, st.attempts + 1, "", none⟩] ++
              [⟨EventType.retry, t.id, st.attempts + 1, msg (st.attempts + 1), none⟩],
            handlerCalls := tr.handlerCalls ++ [(t.id, st.attempts + 1)] }
        k hq
        (by show ((st.attempts + 1 : Nat) : Int) + g = maxR + 1
            push_cast at hg ⊢
            omega)
        (by show st.attempts + 1 < k
            omega)
        (by show k ≤ st.attempts + 1 + g
            omega)
        (fun n hn1 hn2 => hfail n (by simp only [] at hn1; omega) hn2)
        hsucc
      refine ⟨hrec.1, hrec.2.1, hrec.2.2.1, hrec.2.2.2.1, hrec.2.2.2.2.1, ?_⟩
      rw [hrec.2.2.2.2.2]
      have harith : k - st.attempts = (k - (st.attempts + 1)) + 1 := by omega
      rw [harith]
      simp [callsFrom, List.append_assoc]

/-- C2: attempt counting is pre-incremented.  With retry budget `R ≥ 0` and a
fresh state, a handler failing on every invocation is invoked exactly `R + 1`
times and the task ends FAILED with `attempts = R + 1`; a handler first
succeeding on invocation `k ≤ R + 1` is invoked exactly `k` times and the task
ends COMPLETED with `attempts = k`. -/
theorem executeTaskWithRetries_attempt_count
    (cfg : WorkflowEngineConfig) (t : Task) (R : Int) (st : TaskState)
    (q : QueueState) (tr : Trace) (msg : Nat → String)
    (hret : t.retries = some R) (hR : 0 ≤ R) (hatt : st.attempts = 0)
    (hq : canExecuteTask q t.id = true) :
    ((∀ n, 1 ≤ n → executeWithTimeout (t.handler n)
        (t.timeoutMs.getD cfg.defaultTimeoutMs) t.id = .err (msg n)) →
      (executeTaskWithRetries cfg t st q tr).success = false ∧
      (executeTaskWithRetries cfg t st q tr).state.status = .failed ∧
      ((executeTaskWithRetries cfg t st q tr).state.attempts : Int) = R + 1 ∧
      ((executeTaskWithRetries cfg t st q tr).trace.handlerCalls.length : Int) =
        tr.handlerCalls.length + R + 1) ∧
    (∀ (k : Nat) (res : String), 1 ≤ k → (k : Int) ≤ R + 1 →
      (∀ n, 1 ≤ n → n < k → executeWithTimeout (t.handler n)
        (t.timeoutMs.getD cfg.defaultTimeoutMs) t.id = .err (msg n)) →
      executeWithTimeout (t.handler k) (t.timeoutMs.getD cfg.defaultTimeoutMs) t.id = .ok res →
      (executeTaskWithRetries cfg t st q tr).success = true ∧
      (executeTaskWithRetries cfg t st q tr).state.status = .completed ∧
      (executeTaskWithRetries cfg t st q tr).state.attempts = k ∧
      ((executeTaskWithRetries cfg t st q tr).trace.handlerCalls.length : Int) =
        tr.handlerCalls.length + k) := by
  have hN : (((R + 1).toNat : Int)) = R + 1 := Int.toNat_of_nonneg (by omega)
  have hdef : executeTaskWithRetries cfg t st q tr =
      attemptLoop t R (t.timeoutMs.getD cfg.defaultTimeoutMs) ((R + 1).toNat) st q tr := by
    unfold executeTaskWithRetries
    rw [hret, hatt]
    norm_num
  constructor
  · intro hfail
    obtain ⟨hEq, hCalls⟩ := attemptLoop_fail_all t R
      (t.timeoutMs.getD cfg.defaultTimeoutMs) msg ((R + 1).toNat) st q tr
      (by omega) hq (by rw [hatt]; push_cast; omega)
      (fun n hn1 _ => hfail n (by omega))
    rw [hdef, hEq]
    refine ⟨rfl, rfl, ?_, ?_⟩
    · simp only [hatt]
      push_cast
      omega
    · simp only [hCalls, List.length_append, callsFrom_length]
      push_cast
      omega
  · intro k res hk1 hk2 hfail hsucc
    have h := attemptLoop_succeeds t R (t.timeoutMs.getD cfg.defaultTimeoutMs) msg res
      ((R + 1).toNat) st q tr k hq (by rw [hatt]; push_cast; omega)
      (by omega) (by omega)
      (fun n hn1 hn2 => hfail n (by omega) hn2) hsucc
    rw [hdef]
    refine ⟨h.1, h.2.1, h.2.2.1, ?_⟩
    rw [h.2.2.2.2.2]
    simp only [List.length_append, callsFrom_length, hatt]
    push_cast
    omega

/-- C5: a task whose work never settles within its `timeoutMs` — whether it
never settles at all or settles only at or after the timeout — ends FAILED
once the retry budget is exhausted, with `attempts = R + 1` and the recorded
error equal to the `TaskTimeoutError` message "Task <id> timed out after
<timeoutMs>ms"; the timed-out attempt's single outcome is the timer's
rejection, so the abandoned work's late settlement is discarded and causes no
second state transition: the final state is this FAILED one. -/
theorem executeTaskWithRetries_timeout_fails
    (cfg : WorkflowEngineConfig) (t : Task) (R : Int) (st : TaskState)
    (q : QueueState) (tr : Trace)
    (hret : t.retries = some R) (hR : 0 ≤ R) (hatt : st.attempts = 0)
    (hq : canExecuteTask q t.id = true)
    (hlate : ∀ n, 1 ≤ n → ∀ time outcome, t.handler n = HandlerResult.settles time outcome →
      t.timeoutMs.getD cfg.defaultTimeoutMs ≤ time) :
    (executeTaskWithRetries cfg t st q tr).success = false ∧
    (executeTaskWithRetries cfg t st q tr).state.status = .failed ∧
    (executeTaskWithRetries cfg t st q tr).state.error =
      some (timeoutMessage t.id (t.timeoutMs.getD cfg.defaultTimeoutMs)) ∧
    ((executeTaskWithRetries cfg t st q tr).state.attempts : Int) = R + 1 := by
  have hdef : executeTaskWithRetries cfg t st q tr =
      attemptLoop t R (t.timeoutMs.getD cfg.defaultTimeoutMs) ((R + 1).toNat) st q tr := by
    unfold executeTaskWithRetries
    rw [hret, hatt]
    norm_num
  obtain ⟨hEq, _⟩ := attemptLoop_fail_all t R
    (t.timeoutMs.getD cfg.defaultTimeoutMs)
    (fun _ => timeoutMessage t.id (t.timeoutMs.getD cfg.defaultTimeoutMs))
    ((R + 1).toNat) st q tr
    (by omega) hq (by rw [hatt]; push_cast; omega)
    (fun n hn1 _ => by
      cases hh : t.handler n with
      | neverSettles => rfl
      | settles time outcome =>
        have hge := hlate n (by omega) time outcome hh
        simp only [executeWithTimeout]
        rw [if_neg (not_lt.mpr hge)])
  rw [hdef, hEq]
  refine ⟨rfl, rfl, rfl, ?_⟩
  simp only [hatt]
  push_cast
  omega

/-- An empty queue with capacity 10, and the empty trace. -/
def q0 : QueueState := ⟨[], 10⟩

/-- The empty trace. -/
def tr0 : Trace := {}

/-- A task whose handler settles immediately with an error on every
invocation, with a retry budget of 2. -/
def alwaysFailTask : Task :=
  { id := "F", handler := fun _ => .settles 0 (.err "boom"),
    retries := some 2, timeoutMs := some 1000 }

/-- The freshly initialized state for `alwaysFailTask`. -/
def freshStateF : TaskState := ⟨"F", .pending, 0, 2, none, none, [], []⟩

/-- A task whose work settles only after its timeout has fired: the handler
resolves at 1000ms against a 100ms timeout, with a retry budget of 1. -/
def lateTask : Task :=
  { id := "L", handler := fun _ => HandlerResult.settles 1000 (Outcome.ok "late"),
    retries := some 1, timeoutMs := some 100 }

/-- The freshly initialized state for `lateTask`. -/
def freshStateL : TaskState := ⟨"L", .pending, 0, 1, none, none, [], []⟩

/-- Concrete instance of C2: the always-failing task with `retries = 2` is
tried exactly 3 times and ends FAILED with `attempts = 3`. -/
theorem executeTaskWithRetries_attempt_count_witness :
    (executeTaskWithRetries cfgDefault alwaysFailTask freshStateF q0 tr0).success = false ∧
    (executeTaskWithRetries cfgDefault alwaysFailTask freshStateF q0 tr0).state.status = .failed ∧
    ((executeTaskWithRetries cfgDefault alwaysFailTask freshStateF q0 tr0).state.attempts : Int) =
      2 + 1 ∧
    ((executeTaskWithRetries cfgDefault alwaysFailTask freshStateF q0 tr0).trace.handlerCalls.length : Int) =
      tr0.handlerCalls.length + 2 + 1 :=
  (executeTaskWithRetries_attempt_count cfgDefault alwaysFailTask 2 freshStateF q0 tr0
    (fun _ => "boom") rfl (by norm_num) rfl (by decide)).1 (fun _ _ => rfl)

/-- Concrete instance of C5: the never-settling task with `retries = 1` ends
FAILED after 2 attempts with the timeout error recorded. -/
theorem executeTaskWithRetries_timeout_fails_witness :
    (executeTaskWithRetries cfgDefault lateTask freshStateL q0 tr0).success = false ∧
    (executeTaskWithRetries cfgDefault lateTask freshStateL q0 tr0).state.status = .failed ∧
    (executeTaskWithRetries cfgDefault lateTask freshStateL q0 tr0).state.error =
      some (timeoutMessage "L" 100) ∧
    ((executeTaskWithRetries cfgDefault lateTask freshStateL q0 tr0).state.attempts : Int) =
      1 + 1 :=
  executeTaskWithRetries_timeout_fails cfgDefault lateTask 1 freshStateL q0 tr0
    rfl (by norm_num) rfl (by decide)
    (fun n hn time outcome hh => by
      injection hh with h1 h2
      rw [← h1]
      decide)

end WorkflowEngine

namespace WorkflowEngine

/-! ## Cycle-detection completeness (C1)

`isCyclePath wf l` states that `l` is a cycle of the dependency graph: its
consecutive elements are joined by dependency edges and an edge leads from its
last element back to its head.  The soundness proof of the DFS uses the
classic colouring invariant: a node is black when it is `visited` and not on
the recursion stack; the black set is closed under dependency edges and
contains no cycle node, so when the driver finishes with everything black the
graph is acyclic. -/

/-- `cycleFrom wf v u p`: from `u` the nodes of `p` form a dependency chain
whose last element has an edge back to `v`. -/
def cycleFrom (wf : List Task) (v : String) : String → List String → Bool
  | u, [] => (depsOf wf u).contains v
  | u, w :: p => (depsOf wf u).contains w && cycleFrom wf v w p

/-- Whether `l` is a (nonempty) cycle of the dependency graph of `wf`. -/
def isCyclePath (wf : List Task) : List String → Bool
  | [] => false
  | v :: p => cycleFrom wf v v p

/-- The dependency graph of `wf` contains a cycle. -/
def HasCycle (wf : List Task) : Prop := ∃ l, isCyclePath wf l = true

/-- A node is black when the DFS has fully processed it: visited and no
longer on the recursion stack. -/
def IsBlack (visited stack : List String) (u : String) : Prop :=
  u ∈ visited ∧ u ∉ stack

/-- The black set is closed under dependency edges. -/
def DepsClosed (wf : List Task) (visited stack : List String) : Prop :=
  ∀ u, IsBlack visited stack u → ∀ w ∈ depsOf wf u, IsBlack visited stack w

/-- No cycle of the graph starts at a black node. -/
def NoBlackCycle (wf : List Task) (visited stack : List String) : Prop :=
  ∀ v, IsBlack visited stack v → ∀ p, cycleFrom wf v v p ≠ true

theorem isBlack_push (v : String) (visited stack : List String) (hv : v ∉ visited)
    (u : String) : IsBlack (v :: visited) (v :: stack) u ↔ IsBlack visited stack u := by
  unfold IsBlack
  constructor
  · rintro ⟨h1, h2⟩
    have huv : u ≠ v := fun he => h2 (he ▸ List.mem_cons_self v stack)
    exact ⟨(List.mem_cons.mp h1).resolve_left huv, fun hs => h2 (List.mem_cons_of_mem v hs)⟩
  · rintro ⟨h1, h2⟩
    have huv : u ≠ v := fun he => hv (he ▸ h1)
    exact ⟨List.mem_cons_of_mem v h1, fun hs => ((List.mem_cons.mp hs).elim huv h2)⟩

theorem depsClosed_push (wf : List Task) (v : String) (visited stack : List String)
    (hv : v ∉ visited) (h : DepsClosed wf visited stack) :
    DepsClosed wf (v :: visited) (v :: stack) := by
  intro u hu w hw
  exact (isBlack_push v visited stack hv w).mpr
    (h u ((isBlack_push v visited stack hv u).mp hu) w hw)

theorem noBlackCycle_push (wf : List Task) (v : String) (visited stack : List String)
    (hv : v ∉ visited) (h : NoBlackCycle wf visited stack) :
    NoBlackCycle wf (v :: visited) (v :: stack) := by
  intro u hu p
  exact h u ((isBlack_push v visited stack hv u).mp hu) p

/-- Along a chain that starts black and is closed under edges, the node the
chain finally points back to is black as well. -/
theorem cycleFrom_black (wf : List Task) (visited stack : List String)
    (hC : DepsClosed wf visited stack) (v : String) :
    ∀ (p : List String) (u : String), IsBlack visited stack u →
      cycleFrom wf v u p = true → IsBlack visited stack v := by
  intro p
  induction p with
  | nil =>
    intro u hu hcyc
    exact hC u hu v (by simpa [cycleFrom] using hcyc)
  | cons w p ih =>
    intro u hu hcyc
    simp only [cycleFrom, Bool.and_eq_true] at hcyc
    exact ih w (hC u hu w (by simpa using hcyc.1)) hcyc.2

end WorkflowEngine

namespace WorkflowEngine

theorem hasCycleDeps_sound (wf : List Task) (stack1 : List String)
    (child : List String → String → Bool × List String)
    (hchild : ∀ vis d vis2, child vis d = (false, vis2) →
      stack1 ⊆ vis → DepsClosed wf vis stack1 → NoBlackCycle wf vis stack1 →
      vis ⊆ vis2 ∧ stack1 ⊆ vis2 ∧ DepsClosed wf vis2 stack1 ∧
        NoBlackCycle wf vis2 stack1 ∧ d ∈ vis2 ∧ d ∉ stack1) :
    ∀ (ds : List String) (vis vis' : List String),
      hasCycleDeps child vis ds = (false, vis') →
      stack1 ⊆ vis → DepsClosed wf vis stack1 → NoBlackCycle wf vis stack1 →
      vis ⊆ vis' ∧ stack1 ⊆ vis' ∧ DepsClosed wf vis' stack1 ∧
        NoBlackCycle wf vis' stack1 ∧ ∀ d ∈ ds, d ∈ vis' ∧ d ∉ stack1 := by
  intro ds
  induction ds with
  | nil =>
    intro vis vis' h hsub hC hN
    simp only [hasCycleDeps] at h
    cases h
    exact ⟨fun x hx => hx, hsub, hC, hN, by simp⟩
  | cons d ds ih =>
    intro vis vis' h hsub hC hN
    simp only [hasCycleDeps] at h
    cases hcd : child vis d with
    | mk b vis2 =>
      rw [hcd] at h
      cases b with
      | true => simp at h
      | false =>
        simp only [] at h
        obtain ⟨h1, h2, h3, h4, h5, h6⟩ := hchild vis d vis2 hcd hsub hC hN
        obtain ⟨g1, g2, g3, g4, g5⟩ := ih vis2 vis' h h2 h3 h4
        refine ⟨h1.trans g1, g2, g3, g4, fun x hx => ?_⟩
        cases List.mem_cons.mp hx with
        | inl he => exact he ▸ ⟨g1 h5, h6⟩
        | inr hxs => exact g5 x hxs

theorem hasCycleAux_sound (wf : List Task) :
    ∀ (fuel : Nat) (stack visited : List String) (v : String) (vis' : List String),
      hasCycleAux wf fuel stack visited v = (false, vis') →
      stack ⊆ visited → DepsClosed wf visited stack → NoBlackCycle wf visited stack →
      visited ⊆ vis' ∧ stack ⊆ vis' ∧ DepsClosed wf vis' stack ∧
        NoBlackCycle wf vis' stack ∧ v ∈ vis' ∧ v ∉ stack := by
  intro fuel
  induction fuel with
  | zero =>
    intro stack visited v vis' h
    simp [hasCycleAux] at h
  | succ fuel ihf =>
    intro stack visited v vis' h hsub hC hN
    simp only [hasCycleAux] at h
    by_cases hstk : stack.contains v
    · rw [if_pos hstk] at h
      simp at h
    · rw [if_neg hstk] at h
      have hvstk : v ∉ stack := by simpa using hstk
      by_cases hvis : visited.contains v
      · rw [if_pos hvis] at h
        cases h
        exact ⟨fun x hx => hx, hsub, hC, hN, by simpa using hvis, hvstk⟩
      · rw [if_neg hvis] at h
        have hvnot : v ∉ visited := by simpa using hvis
        have hchild : ∀ vis d vis2,
            hasCycleAux wf fuel (v :: stack) vis d = (false, vis2) →
            (v :: stack) ⊆ vis → DepsClosed wf vis (v :: stack) →
            NoBlackCycle wf vis (v :: stack) →
            vis ⊆ vis2 ∧ (v :: stack) ⊆ vis2 ∧ DepsClosed wf vis2 (v :: stack) ∧
              NoBlackCycle wf vis2 (v :: stack) ∧ d ∈ vis2 ∧ d ∉ (v :: stack) :=
          fun vis d vis2 hcd s1 s2 s3 => ihf (v :: stack) vis d vis2 hcd s1 s2 s3
        obtain ⟨b1, b2, b3, b4, b5⟩ := hasCycleDeps_sound wf (v :: stack) _ hchild
          (depsOf wf v) (v :: visited) vis' h
          (by intro x hx
              cases List.mem_cons.mp hx with
              | inl he => exact he ▸ List.mem_cons_self v visited
              | inr hxs => exact List.mem_cons_of_mem v (hsub hxs))
          (depsClosed_push wf v visited stack hvnot hC)
          (noBlackCycle_push wf v visited stack hvnot hN)
        have hvmem : v ∈ vis' := b1 (List.mem_cons_self v visited)
        refine ⟨fun x hx => b1 (List.mem_cons_of_mem v hx),
                fun x hx => b2 (List.mem_cons_of_mem v hx),
                ?_, ?_, hvmem, hvstk⟩
        · intro u hu w hw
          by_cases huv : u = v
          · subst huv
            obtain ⟨hw1, hw2⟩ := b5 w hw
            exact ⟨hw1, fun hws => hw2 (List.mem_cons_of_mem u hws)⟩
          · have hub : IsBlack vis' (v :: stack) u :=
              ⟨hu.1, fun hus => (List.mem_cons.mp hus).elim huv hu.2⟩
            obtain ⟨hw1, hw2⟩ := b3 u hub w hw
            exact ⟨hw1, fun hws => hw2 (List.mem_cons_of_mem v hws)⟩
        · intro u hu p hcyc
          by_cases huv : u = v
          · subst huv
            cases p with
            | nil =>
              have hvdep : u ∈ depsOf wf u := by simpa [cycleFrom] using hcyc
              exact (b5 u hvdep).2 (List.mem_cons_self u stack)
            | cons w p =>
              simp only [cycleFrom, Bool.and_eq_true] at hcyc
              have hwdep : w ∈ depsOf wf u := by simpa using hcyc.1
              have hwblack : IsBlack vis' (u :: stack) w := b5 w hwdep
              have := cycleFrom_black wf vis' (u :: stack) b3 u p w hwblack hcyc.2
              exact this.2 (List.mem_cons_self u stack)
          · have hub : IsBlack vis' (v :: stack) u :=
              ⟨hu.1, fun hus => (List.mem_cons.mp hus).elim huv hu.2⟩
            exact b4 u hub p hcyc

end WorkflowEngine

namespace WorkflowEngine

theorem detectCyclesGo_sound (wf : List Task) :
    ∀ (tasks : List Task) (visited : List String),
      detectCyclesGo wf tasks visited = false →
      DepsClosed wf visited [] → NoBlackCycle wf visited [] →
      ∃ vis', visited ⊆ vis' ∧ DepsClosed wf vis' [] ∧ NoBlackCycle wf vis' [] ∧
        ∀ t ∈ tasks, t.id ∈ vis' := by
  intro tasks
  induction tasks with
  | nil =>
    intro visited _ hC hN
    exact ⟨visited, fun x hx => hx, hC, hN, by simp⟩
  | cons t rest ih =>
    intro visited h hC hN
    simp only [detectCyclesGo] at h
    by_cases hv : visited.contains t.id
    · rw [if_pos hv] at h
      obtain ⟨vis', s1, s2, s3, s4⟩ := ih visited h hC hN
      refine ⟨vis', s1, s2, s3, fun x hx => ?_⟩
      cases List.mem_cons.mp hx with
      | inl he => exact he ▸ s1 (by simpa using hv)
      | inr hxs => exact s4 x hxs
    · rw [if_neg hv] at h
      cases haux : hasCycleAux wf (detectFuel wf) [] visited t.id with
      | mk b vis2 =>
        rw [haux] at h
        cases b with
        | true => simp at h
        | false =>
          simp only [] at h
          obtain ⟨a1, _, a3, a4, a5, _⟩ := hasCycleAux_sound wf (detectFuel wf) [] visited
            t.id vis2 haux (fun x hx => absurd hx (List.not_mem_nil x)) hC hN
          obtain ⟨vis', s1, s2, s3, s4⟩ := ih vis2 h a3 a4
          refine ⟨vis', a1.trans s1, s2, s3, fun x hx => ?_⟩
          cases List.mem_cons.mp hx with
          | inl he => exact he ▸ s1 a5
          | inr hxs => exact s4 x hxs

theorem depsOf_ne_nil_exists (wf : List Task) (v : String) (h : depsOf wf v ≠ []) :
    ∃ t ∈ wf, t.id = v := by
  unfold depsOf at h
  cases hlk : taskMapLookup wf v with
  | none => rw [hlk] at h; exact absurd rfl h
  | some t =>
    unfold taskMapLookup at hlk
    have hp := List.find?_some hlk
    have hm := List.mem_of_find?_eq_some hlk
    exact ⟨t, by simpa using hm, by simpa using hp⟩

/-- If the DFS driver reports no cycle, the dependency graph has none. -/
theorem detectCycles_false_acyclic (wf : List Task)
    (h : detectCycles wf = false) : ∀ l, isCyclePath wf l = false := by
  intro l
  obtain ⟨vis', _, _, hN, hids⟩ := detectCyclesGo_sound wf wf [] h
    (fun u hu => absurd hu.1 (List.not_mem_nil u))
    (fun u hu => absurd hu.1 (List.not_mem_nil u))
  cases l with
  | nil => rfl
  | cons v p =>
    cases hb : isCyclePath wf (v :: p) with
    | false => rfl
    | true =>
      exfalso
      have hcyc : cycleFrom wf v v p = true := hb
      have hdne : depsOf wf v ≠ [] := by
        cases p with
        | nil =>
          have : v ∈ depsOf wf v := by simpa [cycleFrom] using hcyc
          exact List.ne_nil_of_mem this
        | cons w p =>
          simp only [cycleFrom, Bool.and_eq_true] at hcyc
          exact List.ne_nil_of_mem (by simpa using hcyc.1)
      obtain ⟨t, htmem, htid⟩ := depsOf_ne_nil_exists wf v hdne
      have hvmem : v ∈ vis' := htid ▸ hids t htmem
      exact hN v ⟨hvmem, List.not_mem_nil v⟩ p hcyc

/-- Completeness of `validateCircularDependencies`: a cyclic graph is always
detected. -/
theorem detectCycles_of_hasCycle (wf : List Task) (h : HasCycle wf) :
    detectCycles wf = true := by
  cases hb : detectCycles wf with
  | true => rfl
  | false =>
    exfalso
    obtain ⟨l, hl⟩ := h
    have := detectCycles_false_acyclic wf hb l
    rw [hl] at this
    simp at this

end WorkflowEngine

namespace WorkflowEngine

/-- C1 (amended): for every task list whose dependency graph contains a
cycle, `run` throws a `WorkflowValidationError` and no task's handler is ever
invoked (no event is emitted either); when the list additionally passes field
validation — in particular it has no self-dependency, which field validation
rejects first with a message that carries no cycle path — the error is the
cycle error whose message includes the reconstructed cycle path. -/
theorem run_cyclic_workflow_rejected (cfg : WorkflowEngineConfig) (wf : List Task)
    (hcyc : HasCycle wf) :
    (∃ m, (run cfg wf).1 = Except.error (.workflowValidation m)) ∧
    (run cfg wf).2.events = [] ∧ (run cfg wf).2.handlerCalls = [] ∧
    ((validateWorkflow wf).isValid = true →
      (run cfg wf).1 = Except.error (.workflowValidation
        ("Circular dependencies detected: " ++
         String.intercalate " -> " (findCircularDependencyPath wf)))) := by
  have hdet := detectCycles_of_hasCycle wf hcyc
  have hval : validateCircularDependencies wf = some (.workflowValidation
      ("Circular dependencies detected: " ++
       String.intercalate " -> " (findCircularDependencyPath wf))) := by
    unfold validateCircularDependencies
    rw [if_pos hdet]
  unfold run
  by_cases hv : (validateWorkflow wf).isValid
  · simp only [hv, if_true, hval]
    exact ⟨⟨_, rfl⟩, trivial, trivial, fun _ => trivial⟩
  · simp only [hv, Bool.false_eq_true, if_false]
    exact ⟨⟨_, rfl⟩, trivial, trivial, fun hcontra => absurd hcontra (by simp [hv])⟩

/-- Concrete instance of C1: the two-task cycle a → b → a is rejected with the
cycle path in the message, emitting nothing and invoking no handler. -/
theorem run_cyclic_workflow_rejected_witness :
    (∃ m, (run cfgDefault wfCycle2).1 = Except.error (.workflowValidation m)) ∧
    (run cfgDefault wfCycle2).2.events = [] ∧
    (run cfgDefault wfCycle2).2.handlerCalls = [] ∧
    ((validateWorkflow wfCycle2).isValid = true →
      (run cfgDefault wfCycle2).1 = Except.error (.workflowValidation
        ("Circular dependencies detected: " ++
         String.intercalate " -> " (findCircularDependencyPath wfCycle2)))) :=
  run_cyclic_workflow_rejected cfgDefault wfCycle2 ⟨["a", "b"], by decide⟩

end WorkflowEngine

namespace WorkflowEngine

/-! ## State-map and event-list infrastructure for the orchestration proofs -/

theorem lookupState_set_self (m : StateMap) (k : String) (v : TaskState) :
    lookupState (setState m k v) k = some v := by
  induction m with
  | nil => simp [setState, lookupState]
  | cons p rest ih =>
    by_cases h : p.1 = k
    · simp [setState, h, lookupState]
    · simp [setState, h, lookupState, ih]

theorem lookupState_set_other (m : StateMap) (k k' : String) (v : TaskState)
    (h : k' ≠ k) : lookupState (setState m k v) k' = lookupState m k' := by
  induction m with
  | nil =>
    simp only [setState, lookupState]
    rw [if_neg (fun he => h he.symm)]
  | cons p rest ih =>
    by_cases hp : p.1 = k
    · simp only [setState, hp, if_true, lookupState]
      rw [if_neg (fun he => h he.symm), if_neg (fun he => h he.symm)]
    · simp only [setState, hp, if_false, lookupState]
      by_cases hk : p.1 = k'
      · simp [hk]
      · simp [hk, ih]

theorem setState_length_of_present (m : StateMap) (k : String) (v : TaskState)
    (h : (lookupState m k).isSome = true) : (setState m k v).length = m.length := by
  induction m with
  | nil => simp [lookupState] at h
  | cons p rest ih =>
    by_cases hp : p.1 = k
    · simp [setState, hp]
    · simp only [lookupState, hp, if_false] at h
      simp [setState, hp, ih h]

theorem setState_length_of_absent (m : StateMap) (k : String) (v : TaskState)
    (h : lookupState m k = none) : (setState m k v).length = m.length + 1 := by
  induction m with
  | nil => simp [setState]
  | cons p rest ih =>
    by_cases hp : p.1 = k
    · simp [lookupState, hp] at h
    · simp only [lookupState, hp, if_false] at h
      simp [setState, hp, ih h]

theorem lookupState_isSome_set (m : StateMap) (k k' : String) (v : TaskState) :
    (lookupState (setState m k v) k').isSome = true ↔
      ((lookupState m k').isSome = true ∨ k' = k) := by
  by_cases h : k' = k
  · subst h
    simp [lookupState_set_self]
  · rw [lookupState_set_other m k k' v h]
    simp [h]

/-- The per-task state built by `initializeTaskStates`. -/
def mkInitState (cfg : WorkflowEngineConfig) (wf : List Task) (t : Task) : TaskState :=
  { id := t.id
    status := .pending
    attempts := 0
    maxRetries := t.retries.getD cfg.defaultRetries
    error := none
    result := none
    dependencies := t.dependencies.getD []
    dependents := computeDependents wf t.id }

theorem init_foldl_lookup (cfg : WorkflowEngineConfig) (wf : List Task) :
    ∀ (ts : List Task) (m : StateMap) (x : String),
      (∀ t ∈ ts, lookupState m t.id = none) → (ts.map Task.id).Nodup →
      lookupState (ts.foldl (fun m t => setState m t.id (mkInitState cfg wf t)) m) x =
        match ts.find? (fun t => t.id == x) with
        | some t => some (mkInitState cfg wf t)
        | none => lookupState m x := by
  intro ts
  induction ts with
  | nil => intro m x _ _; rfl
  | cons t ts ih =>
    intro m x habs hnd
    simp only [List.foldl_cons]
    have hnd2 : (ts.map Task.id).Nodup := by
      simpa using (List.nodup_cons.mp (by simpa using hnd)).2
    have htid : t.id ∉ ts.map Task.id := (List.nodup_cons.mp (by simpa using hnd)).1
    have habs2 : ∀ u ∈ ts, lookupState (setState m t.id (mkInitState cfg wf t)) u.id = none := by
      intro u hu
      have hne : u.id ≠ t.id := fun he => htid (he ▸ List.mem_map_of_mem Task.id hu)
      rw [lookupState_set_other m t.id u.id _ hne]
      exact habs u (List.mem_cons_of_mem t hu)
    rw [ih (setState m t.id (mkInitState cfg wf t)) x habs2 hnd2]
    by_cases hx : t.id = x
    · subst hx
      have hfind : ts.find? (fun u => u.id == t.id) = none := by
        apply List.find?_eq_none.mpr
        intro u hu
        simp only [beq_iff_eq]
        exact fun he => htid (he ▸ List.mem_map_of_mem Task.id hu)
      simp [List.find?_cons, hfind, lookupState_set_self]
    · have : (t.id == x) = false := by simpa using hx
      simp only [List.find?_cons, this]
      cases hfind : ts.find? (fun u => u.id == x) with
      | some u => simp
      | none => simp [lookupState_set_other m t.id x _ (fun he => hx he.symm)]

theorem init_lookup (cfg : WorkflowEngineConfig) (wf : List Task)
    (hnd : (wf.map Task.id).Nodup) (x : String) :
    lookupState (initializeTaskStates cfg wf) x =
      match wf.find? (fun t => t.id == x) with
      | some t => some (mkInitState cfg wf t)
      | none => none := by
  have h := init_foldl_lookup cfg wf wf [] x (fun t _ => rfl) hnd
  show lookupState (wf.foldl (fun m t => setState m t.id (mkInitState cfg wf t)) []) x = _
  rw [h]
  cases wf.find? (fun t => t.id == x) <;> rfl

theorem init_foldl_length (cfg : WorkflowEngineConfig) (wf : List Task) :
    ∀ (ts : List Task) (m : StateMap),
      (∀ t ∈ ts, lookupState m t.id = none) → (ts.map Task.id).Nodup →
      (ts.foldl (fun m t => setState m t.id (mkInitState cfg wf t)) m).length =
        m.length + ts.length := by
  intro ts
  induction ts with
  | nil => intro m _ _; rfl
  | cons t ts ih =>
    intro m habs hnd
    simp only [List.foldl_cons]
    have hnd2 : (ts.map Task.id).Nodup := by
      simpa using (List.nodup_cons.mp (by simpa using hnd)).2
    have htid : t.id ∉ ts.map Task.id := (List.nodup_cons.mp (by simpa using hnd)).1
    have habs2 : ∀ u ∈ ts, lookupState (setState m t.id (mkInitState cfg wf t)) u.id = none := by
      intro u hu
      have hne : u.id ≠ t.id := fun he => htid (he ▸ List.mem_map_of_mem Task.id hu)
      rw [lookupState_set_other m t.id u.id _ hne]
      exact habs u (List.mem_cons_of_mem t hu)
    rw [ih (setState m t.id (mkInitState cfg wf t)) habs2 hnd2,
      setState_length_of_absent m t.id _ (habs t (List.mem_cons_self t ts))]
    simp [Nat.add_assoc, Nat.add_comm 1]

theorem init_length (cfg : WorkflowEngineConfig) (wf : List Task)
    (hnd : (wf.map Task.id).Nodup) :
    (initializeTaskStates cfg wf).length = wf.length := by
  have h := init_foldl_length cfg wf wf [] (fun t _ => rfl) hnd
  show (wf.foldl (fun m t => setState m t.id (mkInitState cfg wf t)) []).length = wf.length
  rw [h]
  simp

theorem countStatus_partition (states : StateMap)
    (h : ∀ p ∈ states, p.2.status = Status.completed ∨ p.2.status = Status.failed ∨
      p.2.status = Status.skipped) :
    countStatus states .completed + countStatus states .failed +
      countStatus states .skipped = states.length := by
  induction states with
  | nil => rfl
  | cons p rest ih =>
    have hrest := ih (fun x hx => h x (List.mem_cons_of_mem p hx))
    unfold countStatus at hrest
    rcases h p (List.mem_cons_self p rest) with hc | hc | hc <;>
    · simp [countStatus, List.filter_cons, hc]
      omega

end WorkflowEngine

namespace WorkflowEngine

/-- Every outcome event (a non-STARTED event carrying an attempt number ≥ 1)
is preceded by the STARTED event of the same task and attempt. -/
def PairedEvents (evs : List Event) : Prop :=
  ∀ (l : List Event) (ev : Event) (r : List Event), evs = l ++ ev :: r →
    ev.type ≠ .started → 1 ≤ ev.attempt →
    ∃ e ∈ l, e.taskId = ev.taskId ∧ e.type = .started ∧ e.attempt = ev.attempt

theorem append_singleton_split {α : Type} (evs : List α) (ev : α) (l r : List α) (x : α)
    (h : evs ++ [ev] = l ++ x :: r) :
    (∃ r0, evs = l ++ x :: r0) ∨ (l = evs ∧ x = ev ∧ r = []) := by
  induction l generalizing evs with
  | nil =>
    cases evs with
    | nil =>
      simp at h
      right
      exact ⟨rfl, h.1.symm, h.2.symm ▸ rfl⟩
    | cons e es =>
      simp only [List.cons_append, List.nil_append] at h
      left
      exact ⟨es, by rw [List.nil_append, (List.cons.injEq _ _ _ _).mp h |>.1]⟩
  | cons y l ih =>
    cases evs with
    | nil =>
      simp only [List.nil_append, List.cons_append] at h
      obtain ⟨-, h2⟩ := (List.cons.injEq _ _ _ _).mp h
      exact absurd (congrArg List.length h2) (by simp; omega)
    | cons e es =>
      simp only [List.cons_append] at h
      obtain ⟨h1, h2⟩ := (List.cons.injEq _ _ _ _).mp h
      rcases ih es h2 with ⟨r0, hr0⟩ | ⟨ha, hb, hc⟩
      · exact Or.inl ⟨r0, by rw [List.cons_append, h1, hr0]⟩
      · exact Or.inr ⟨by rw [h1, ha], hb, hc⟩

theorem pairedEvents_nil : PairedEvents [] := by
  intro l ev r h
  exfalso
  have hlen := congrArg List.length h
  simp at hlen
  omega
theorem pairedEvents_append (evs : List Event) (ev : Event) (h : PairedEvents evs)
    (hev : ev.type ≠ .started → 1 ≤ ev.attempt →
      ∃ e ∈ evs, e.taskId = ev.taskId ∧ e.type = .started ∧ e.attempt = ev.attempt) :
    PairedEvents (evs ++ [ev]) := by
  intro l x r hsplit ht ha
  rcases append_singleton_split evs ev l r x hsplit with ⟨r0, hr0⟩ | ⟨hl, hx, -⟩
  · exact h l x r0 hr0 ht ha
  · subst hl
    subst hx
    exact hev ht ha

/-! Facts extracted from a passing field validation. -/

theorem nodup_of_indexOf_enum (l : List String)
    (h : ∀ p ∈ l.enum, l.indexOf p.2 = p.1) : l.Nodup := by
  rw [List.nodup_iff_injective_get]
  intro i j hij
  have hi := h (i.1, l.get i)
    (by rw [List.mem_enum_iff_getElem?]; simp [List.getElem?_eq_getElem, i.2])
  have hj := h (j.1, l.get j)
    (by rw [List.mem_enum_iff_getElem?]; simp [List.getElem?_eq_getElem, j.2])
  apply Fin.ext
  simp only at hi hj
  rw [← hi, ← hj, hij]

theorem nodup_of_duplicateTaskIds_nil (wf : List Task)
    (h : duplicateTaskIds wf = []) : (wf.map Task.id).Nodup := by
  unfold duplicateTaskIds at h
  apply nodup_of_indexOf_enum
  have hfilter := List.map_eq_nil_iff.mp h
  rw [List.filter_eq_nil_iff] at hfilter
  intro p hp
  have := hfilter p hp
  simpa using this

theorem validateWorkflow_isValid_parts (wf : List Task)
    (h : (validateWorkflow wf).isValid = true) :
    duplicateTaskIds wf = [] ∧ ∀ t ∈ wf, validateTask t = [] := by
  unfold validateWorkflow at h
  simp only [List.isEmpty_iff] at h
  obtain ⟨-, hmid, hrules⟩ :
      workflowDtoErrors wf = [] ∧
      (wf.map (fun t =>
        if validateTask t = [] then []
        else ["Task " ++ t.id ++ ": " ++ String.intercalate ", " (validateTask t)])).flatten = [] ∧
      validateWorkflowRules wf = [] := by
    have h1 := List.append_eq_nil.mp h
    have h2 := List.append_eq_nil.mp h1.1
    exact ⟨h2.1, h2.2, h1.2⟩
  constructor
  · unfold validateWorkflowRules at hrules
    have h1 := (List.append_eq_nil.mp hrules).1
    have h2 := (List.append_eq_nil.mp h1).1
    by_cases hd : duplicateTaskIds wf = []
    · exact hd
    · rw [if_neg (by simpa using hd)] at h2
      exact absurd h2 (by simp)
  · intro t ht
    have hmem := List.flatten_eq_nil_iff.mp hmid
    have hone := hmem _ (List.mem_map_of_mem _ ht)
    by_cases he : validateTask t = []
    · exact he
    · rw [if_neg (by simpa using he)] at hone
      exact absurd hone (by simp)

theorem retries_nonneg_of_valid (wf : List Task) (t : Task) (ht : t ∈ wf)
    (h : (validateWorkflow wf).isValid = true) (r : Int) (hr : t.retries = some r) :
    0 ≤ r := by
  have hvt := (validateWorkflow_isValid_parts wf h).2 t ht
  unfold validateTask at hvt
  have hdto := (List.append_eq_nil.mp hvt).1
  unfold taskDtoErrors at hdto
  rw [hr] at hdto
  have h1 := (List.append_eq_nil.mp hdto).1
  have h2 := (List.append_eq_nil.mp h1).1
  by_contra hneg
  rw [if_pos (by omega)] at h2
  exact absurd h2 (by simp)

theorem nodup_of_valid (wf : List Task)
    (h : (validateWorkflow wf).isValid = true) : (wf.map Task.id).Nodup :=
  nodup_of_duplicateTaskIds_nil wf (validateWorkflow_isValid_parts wf h).1

end WorkflowEngine


namespace WorkflowEngine

theorem attemptLoop_step_ok (t : Task) (maxR tmo : Int) (g : Nat)
    (st : TaskState) (q : QueueState) (tr : Trace) (res : String)
    (hq : canExecuteTask q t.id = true)
    (hout : executeWithTimeout (t.handler (st.attempts + 1)) tmo t.id = .ok res) :
    attemptLoop t maxR tmo (g + 1) st q tr =
      ⟨true,
       { st with attempts := st.attempts + 1, status := .completed, result := some res },
       q,
       { tr with
          events := tr.events ++ [⟨.started, t.id, st.attempts + 1, "", none⟩] ++
            [⟨.completed, t.id, st.attempts + 1, "", some res⟩],
          handlerCalls := tr.handlerCalls ++ [(t.id, st.attempts + 1)] }⟩ := by
  simp only [attemptLoop, hq, if_true, hout, queue_roundtrip q t.id hq]

theorem attemptLoop_step_fail (t : Task) (maxR tmo : Int) (g : Nat)
    (st : TaskState) (q : QueueState) (tr : Trace) (msg : String)
    (hq : canExecuteTask q t.id = true)
    (hout : executeWithTimeout (t.handler (st.attempts + 1)) tmo t.id = .err msg)
    (hmax : maxR < ((st.attempts + 1 : Nat) : Int)) :
    attemptLoop t maxR tmo (g + 1) st q tr =
      ⟨false,
       { st with attempts := st.attempts + 1, status := .failed, error := some msg },
       q,
       { tr with
          events := tr.events ++ [⟨.started, t.id, st.attempts + 1, "", none⟩] ++
            [⟨.failed, t.id, st.attempts + 1, msg, none⟩],
          handlerCalls := tr.handlerCalls ++ [(t.id, st.attempts + 1)] }⟩ := by
  simp only [attemptLoop, hq, if_true, hout, hmax, if_pos, queue_roundtrip q t.id hq]

theorem attemptLoop_step_retry (t : Task) (maxR tmo : Int) (g : Nat)
    (st : TaskState) (q : QueueState) (tr : Trace) (msg : String)
    (hq : canExecuteTask q t.id = true)
    (hout : executeWithTimeout (t.handler (st.attempts + 1)) tmo t.id = .err msg)
    (hmax : ¬maxR < ((st.attempts + 1 : Nat) : Int)) :
    attemptLoop t maxR tmo (g + 1) st q tr =
      attemptLoop t maxR tmo g
        { st with attempts := st.attempts + 1, status := .running, error := some msg } q
        { tr with
           events := tr.events ++ [⟨.started, t.id, st.attempts + 1, "", none⟩] ++
             [⟨.retry, t.id, st.attempts + 1, msg, none⟩],
           handlerCalls := tr.handlerCalls ++ [(t.id, st.attempts + 1)] } := by
  simp only [attemptLoop, hq, if_true, hout, hmax, if_neg, if_false,
    queue_roundtrip q t.id hq]

end WorkflowEngine

namespace WorkflowEngine

/-- Qualitative facts about one `executeTaskWithRetries` loop run: the queue is
restored, only the executed task's events and handler calls are appended (all
carrying its id), a successful run ends COMPLETED and emits its COMPLETED
event, a failed run ends FAILED, the identity fields are preserved, any event
invariant closed under appending same-task events is preserved, and event
pairing is preserved. -/
theorem attemptLoop_facts (t : Task) (maxR tmo : Int) :
    ∀ (gas : Nat) (st : TaskState) (q : QueueState) (tr : Trace),
      1 ≤ gas →
      canExecuteTask q t.id = true →
      (st.attempts : Int) + gas = maxR + 1 →
      (attemptLoop t maxR tmo gas st q tr).queue = q ∧
      ((attemptLoop t maxR tmo gas st q tr).state.id = st.id ∧
       (attemptLoop t maxR tmo gas st q tr).state.dependencies = st.dependencies ∧
       (attemptLoop t maxR tmo gas st q tr).state.dependents = st.dependents ∧
       (attemptLoop t maxR tmo gas st q tr).state.maxRetries = st.maxRetries) ∧
      ((attemptLoop t maxR tmo gas st q tr).success = true →
        (attemptLoop t maxR tmo gas st q tr).state.status = .completed) ∧
      ((attemptLoop t maxR tmo gas st q tr).success = false →
        (attemptLoop t maxR tmo gas st q tr).state.status = .failed) ∧
      (∃ seg, (attemptLoop t maxR tmo gas st q tr).trace.events = tr.events ++ seg ∧
        (∀ e ∈ seg, e.taskId = t.id) ∧
        ((attemptLoop t maxR tmo gas st q tr).success = true →
          ∃ e ∈ seg, e.taskId = t.id ∧ e.type = .completed)) ∧
      (∃ cs, (attemptLoop t maxR tmo gas st q tr).trace.handlerCalls =
          tr.handlerCalls ++ cs ∧ ∀ c ∈ cs, c.1 = t.id) ∧
      (∀ (P : List Event → Prop),
        (∀ evs ev, P evs → ev.taskId = t.id → (∃ s, evs = tr.events ++ s) →
          P (evs ++ [ev])) →
        P tr.events → P (attemptLoop t maxR tmo gas st q tr).trace.events) ∧
      (PairedEvents tr.events →
        PairedEvents (attemptLoop t maxR tmo gas st q tr).trace.events) ∧
      (attemptLoop t maxR tmo gas st q tr).trace.steps = tr.steps := by
  intro gas
  induction gas with
  | zero => intro st q tr h1g; omega
  | succ g ih =>
    intro st q tr _ hq hg
    cases hout : executeWithTimeout (t.handler (st.attempts + 1)) tmo t.id with
    | ok res =>
      rw [attemptLoop_step_ok t maxR tmo g st q tr res hq hout]
      refine ⟨rfl, ⟨rfl, rfl, rfl, rfl⟩, fun _ => rfl, fun hc => by simp at hc,
        ⟨[⟨.started, t.id, st.attempts + 1, "", none⟩,
          ⟨.completed, t.id, st.attempts + 1, "", some res⟩], by simp, ?_, ?_⟩,
        ⟨[(t.id, st.attempts + 1)], rfl, by simp⟩, ?_, ?_, rfl⟩
      · intro e he
        rcases List.mem_cons.mp he with he | he
        · simp [he]
        · rcases List.mem_cons.mp he with he | he
          · simp [he]
          · exact absurd he (List.not_mem_nil e)
      · intro _
        exact ⟨⟨.completed, t.id, st.attempts + 1, "", some res⟩, by simp, rfl, rfl⟩
      · intro P hclosed hP
        have h1 := hclosed tr.events ⟨.started, t.id, st.attempts + 1, "", none⟩ hP rfl
          ⟨[], by simp⟩
        have h2 := hclosed (tr.events ++ [⟨.started, t.id, st.attempts + 1, "", none⟩])
          ⟨.completed, t.id, st.attempts + 1, "", some res⟩ h1 rfl
          ⟨[⟨.started, t.id, st.attempts + 1, "", none⟩], rfl⟩
        exact h2
      · intro hpd
        have h1 := pairedEvents_append tr.events ⟨.started, t.id, st.attempts + 1, "", none⟩
          hpd (fun ht _ => absurd rfl ht)
        exact pairedEvents_append _ ⟨.completed, t.id, st.attempts + 1, "", some res⟩ h1
          (fun _ _ => ⟨⟨.started, t.id, st.attempts + 1, "", none⟩, by simp, rfl, rfl, rfl⟩)
    | err msg =>
      by_cases hmax : maxR < ((st.attempts + 1 : Nat) : Int)
      · rw [attemptLoop_step_fail t maxR tmo g st q tr msg hq hout hmax]
        refine ⟨rfl, ⟨rfl, rfl, rfl, rfl⟩, fun hc => by simp at hc, fun _ => rfl,
          ⟨[⟨.started, t.id, st.attempts + 1, "", none⟩,
            ⟨.failed, t.id, st.attempts + 1, msg, none⟩], by simp, ?_, ?_⟩,
          ⟨[(t.id, st.attempts + 1)], rfl, by simp⟩, ?_, ?_, rfl⟩
        · intro e he
          rcases List.mem_cons.mp he with he | he
          · simp [he]
          · rcases List.mem_cons.mp he with he | he
            · simp [he]
            · exact absurd he (List.not_mem_nil e)
        · intro hc
          simp at hc
        · intro P hclosed hP
          have h1 := hclosed tr.events ⟨.started, t.id, st.attempts + 1, "", none⟩ hP rfl
            ⟨[], by simp⟩
          have h2 := hclosed (tr.events ++ [⟨.started, t.id, st.attempts + 1, "", none⟩])
            ⟨.failed, t.id, st.attempts + 1, msg, none⟩ h1 rfl
            ⟨[⟨.started, t.id, st.attempts + 1, "", none⟩], rfl⟩
          exact h2
        · intro hpd
          have h1 := pairedEvents_append tr.events ⟨.started, t.id, st.attempts + 1, "", none⟩
            hpd (fun ht _ => absurd rfl ht)
          exact pairedEvents_append _ ⟨.failed, t.id, st.attempts + 1, msg, none⟩ h1
            (fun _ _ => ⟨⟨.started, t.id, st.attempts + 1, "", none⟩, by simp, rfl, rfl, rfl⟩)
      · have hg1 : 1 ≤ g := by push_cast at hg; omega
        rw [attemptLoop_step_retry t maxR tmo g st q tr msg hq hout hmax]
        obtain ⟨c1, c2, c3, c4, ⟨seg, s1, s2, s3⟩, ⟨cs, k1, k2⟩, c7, c8, c9⟩ :=
          ih { st with attempts := st.attempts + 1, status := .running, error := some msg } q
            { tr with
               events := tr.events ++ [⟨.started, t.id, st.attempts + 1, "", none⟩] ++
                 [⟨.retry, t.id, st.attempts + 1, msg, none⟩],
               handlerCalls := tr.handlerCalls ++ [(t.id, st.attempts + 1)] }
            hg1 hq (by push_cast at hg ⊢; omega)
        refine ⟨c1, ⟨c2.1, c2.2.1, c2.2.2.1, c2.2.2.2⟩, c3, c4, ?_, ?_, ?_, ?_, ?_⟩
        · refine ⟨[⟨.started, t.id, st.attempts + 1, "", none⟩,
            ⟨.retry, t.id, st.attempts + 1, msg, none⟩] ++ seg, ?_, ?_, ?_⟩
          · rw [s1]
            simp [List.append_assoc]
          · intro e he
            rcases List.mem_append.mp he with he | he
            · rcases List.mem_cons.mp he with he | he
              · simp [he]
              · rcases List.mem_cons.mp he with he | he
                · simp [he]
                · exact absurd he (List.not_mem_nil e)
            · exact s2 e he
          · intro hsucc
            obtain ⟨e, he1, he2⟩ := s3 hsucc
            exact ⟨e, List.mem_append.mpr (Or.inr he1), he2⟩
        · refine ⟨[(t.id, st.attempts + 1)] ++ cs, ?_, ?_⟩
          · rw [k1]
            simp [List.append_assoc]
          · intro c hc
            rcases List.mem_append.mp hc with hc | hc
            · rcases List.mem_cons.mp hc with hc | hc
              · simp [hc]
              · exact absurd hc (List.not_mem_nil c)
            · exact k2 c hc
        · intro P hclosed hP
          apply c7 P
          · intro evs ev hPe hid hpre
            obtain ⟨s, hs⟩ := hpre
            refine hclosed evs ev hPe hid ⟨[⟨.started, t.id, st.attempts + 1, "", none⟩,
              ⟨.retry, t.id, st.attempts + 1, msg, none⟩] ++ s, ?_⟩
            rw [hs]
            simp [List.append_assoc]
          · have h1 := hclosed tr.events ⟨.started, t.id, st.attempts + 1, "", none⟩ hP rfl
              ⟨[], by simp⟩
            have h2 := hclosed (tr.events ++ [⟨.started, t.id, st.attempts + 1, "", none⟩])
              ⟨.retry, t.id, st.attempts + 1, msg, none⟩ h1 rfl
              ⟨[⟨.started, t.id, st.attempts + 1, "", none⟩], rfl⟩
            exact h2
        · intro hpd
          apply c8
          have h1 := pairedEvents_append tr.events ⟨.started, t.id, st.attempts + 1, "", none⟩
            hpd (fun ht _ => absurd rfl ht)
          exact pairedEvents_append _ ⟨.retry, t.id, st.attempts + 1, msg, none⟩ h1
            (fun _ _ => ⟨⟨.started, t.id, st.attempts + 1, "", none⟩, by simp, rfl, rfl, rfl⟩)
        · exact c9

end WorkflowEngine

namespace WorkflowEngine

theorem executeTaskWithRetries_facts (cfg : WorkflowEngineConfig) (t : Task)
    (st : TaskState) (q : QueueState) (tr : Trace)
    (hq : canExecuteTask q t.id = true) (hatt : st.attempts = 0)
    (hR : 0 ≤ t.retries.getD cfg.defaultRetries) :
    (executeTaskWithRetries cfg t st q tr).queue = q ∧
    ((executeTaskWithRetries cfg t st q tr).state.id = st.id ∧
     (executeTaskWithRetries cfg t st q tr).state.dependencies = st.dependencies ∧
     (executeTaskWithRetries cfg t st q tr).state.dependents = st.dependents ∧
     (executeTaskWithRetries cfg t st q tr).state.maxRetries = st.maxRetries) ∧
    ((executeTaskWithRetries cfg t st q tr).success = true →
      (executeTaskWithRetries cfg t st q tr).state.status = .completed) ∧
    ((executeTaskWithRetries cfg t st q tr).success = false →
      (executeTaskWithRetries cfg t st q tr).state.status = .failed) ∧
    (∃ seg, (executeTaskWithRetries cfg t st q tr).trace.events = tr.events ++ seg ∧
      (∀ e ∈ seg, e.taskId = t.id) ∧
      ((executeTaskWithRetries cfg t st q tr).success = true →
        ∃ e ∈ seg, e.taskId = t.id ∧ e.type = .completed)) ∧
    (∃ cs, (executeTaskWithRetries cfg t st q tr).trace.handlerCalls =
        tr.handlerCalls ++ cs ∧ ∀ c ∈ cs, c.1 = t.id) ∧
    (∀ (P : List Event → Prop),
      (∀ evs ev, P evs → ev.taskId = t.id → (∃ s, evs = tr.events ++ s) →
        P (evs ++ [ev])) →
      P tr.events → P (executeTaskWithRetries cfg t st q tr).trace.events) ∧
    (PairedEvents tr.events →
      PairedEvents (executeTaskWithRetries cfg t st q tr).trace.events) ∧
    (executeTaskWithRetries cfg t st q tr).trace.steps = tr.steps := by
  have hdef : executeTaskWithRetries cfg t st q tr =
      attemptLoop t (t.retries.getD cfg.defaultRetries) (t.timeoutMs.getD cfg.defaultTimeoutMs)
        ((t.retries.getD cfg.defaultRetries + 1).toNat) st q tr := by
    unfold executeTaskWithRetries
    rw [hatt]
    norm_num
  rw [hdef]
  exact attemptLoop_facts t (t.retries.getD cfg.defaultRetries)
    (t.timeoutMs.getD cfg.defaultTimeoutMs) ((t.retries.getD cfg.defaultRetries + 1).toNat)
    st q tr (by omega) hq (by rw [hatt]; push_cast; omega)

theorem pairedEvents_append_seg (evs : List Event) :
    ∀ (seg : List Event), PairedEvents evs → (∀ e ∈ seg, e.attempt = 0) →
    PairedEvents (evs ++ seg) := by
  intro seg
  induction seg generalizing evs with
  | nil => intro h _; simpa using h
  | cons e seg ih =>
    intro h hseg
    have h1 : PairedEvents (evs ++ [e]) :=
      pairedEvents_append evs e h
        (fun _ ha => by rw [hseg e (List.mem_cons_self e seg)] at ha; omega)
    have := ih (evs ++ [e]) h1 (fun x hx => hseg x (List.mem_cons_of_mem e hx))
    simpa [List.append_assoc] using this

/-- Every STARTED event for a task is preceded by a COMPLETED event of each of
the task's dependencies. -/
def DepGuard (wf : List Task) (evs : List Event) : Prop :=
  ∀ t ∈ wf, ∀ d ∈ t.dependencies.getD [], ∀ (l : List Event) (ev : Event) (r : List Event),
    evs = l ++ ev :: r → ev.type = .started → ev.taskId = t.id →
    ∃ e ∈ l, e.taskId = d ∧ e.type = .completed

theorem depGuard_append_nonstarted (wf : List Task) (evs : List Event) (e : Event)
    (h : DepGuard wf evs) (he : e.type ≠ .started) : DepGuard wf (evs ++ [e]) := by
  intro t ht d hd l ev r hsplit hty hid
  rcases append_singleton_split evs e l r ev hsplit with ⟨r0, hr0⟩ | ⟨-, hx, -⟩
  · exact h t ht d hd l ev r0 hr0 hty hid
  · exact absurd (hx ▸ hty) he

theorem depGuard_append_seg (wf : List Task) (evs : List Event) :
    ∀ (seg : List Event), DepGuard wf evs → (∀ e ∈ seg, e.type ≠ .started) →
    DepGuard wf (evs ++ seg) := by
  intro seg
  induction seg generalizing evs with
  | nil => intro h _; simpa using h
  | cons e seg ih =>
    intro h hseg
    have h1 := depGuard_append_nonstarted wf evs e h (hseg e (List.mem_cons_self e seg))
    have := ih (evs ++ [e]) h1 (fun x hx => hseg x (List.mem_cons_of_mem e hx))
    simpa [List.append_assoc] using this

theorem depGuard_append_started (wf : List Task) (evs : List Event) (e : Event)
    (h : DepGuard wf evs)
    (hok : ∀ t ∈ wf, t.id = e.taskId → ∀ d ∈ t.dependencies.getD [],
      ∃ e2 ∈ evs, e2.taskId = d ∧ e2.type = .completed) :
    DepGuard wf (evs ++ [e]) := by
  intro t ht d hd l ev r hsplit hty hid
  rcases append_singleton_split evs e l r ev hsplit with ⟨r0, hr0⟩ | ⟨hl, hx, -⟩
  · exact h t ht d hd l ev r0 hr0 hty hid
  · subst hl
    obtain ⟨e2, he2m, he2⟩ := hok t ht (by rw [← hid, hx]) d hd
    exact ⟨e2, he2m, he2⟩

theorem setState_map_fst_of_present (m : StateMap) (k : String) (v : TaskState)
    (h : (lookupState m k).isSome = true) :
    (setState m k v).map Prod.fst = m.map Prod.fst := by
  induction m with
  | nil => simp [lookupState] at h
  | cons p rest ih =>
    by_cases hp : p.1 = k
    · simp [setState, hp]
    · simp only [lookupState, hp, if_false] at h
      simp [setState, hp, ih h]

theorem markDependentsLoop_facts (failedId : String) :
    ∀ (deps : List String) (states : StateMap) (tr : Trace),
      (∀ x, lookupState (markDependentsLoop failedId deps states tr).1 x =
          lookupState states x ∨
        (x ∈ deps ∧ ∃ stx, lookupState states x = some stx ∧ stx.status = .pending ∧
          lookupState (markDependentsLoop failedId deps states tr).1 x =
            some { stx with status := .skipped })) ∧
      (∃ seg, (markDependentsLoop failedId deps states tr).2.events = tr.events ++ seg ∧
        ∀ e ∈ seg, e.type = .failed ∧ e.attempt = 0) ∧
      (markDependentsLoop failedId deps states tr).2.handlerCalls = tr.handlerCalls ∧
      (markDependentsLoop failedId deps states tr).2.steps = tr.steps ∧
      (markDependentsLoop failedId deps states tr).1.length = states.length ∧
      (∀ x, (lookupState (markDependentsLoop failedId deps states tr).1 x).isSome =
        (lookupState states x).isSome) ∧
      (markDependentsLoop failedId deps states tr).1.map Prod.fst =
        states.map Prod.fst := by
  intro deps
  induction deps with
  | nil =>
    intro states tr
    simp only [markDependentsLoop]
    exact ⟨fun x => Or.inl trivial, ⟨[], by simp, by simp⟩, trivial, trivial, trivial,
      fun x => trivial, trivial⟩
  | cons depId rest ih =>
    intro states tr
    cases hlk : lookupState states depId with
    | none =>
      have hred : markDependentsLoop failedId (depId :: rest) states tr =
          markDependentsLoop failedId rest states tr := by
        simp only [markDependentsLoop, hlk]
      rw [hred]
      obtain ⟨a1, ⟨seg, a2, a3⟩, a4, a5, a6, a7, a8⟩ := ih states tr
      exact ⟨fun x => (a1 x).imp id (fun hx => ⟨List.mem_cons_of_mem depId hx.1, hx.2⟩),
        ⟨seg, a2, a3⟩, a4, a5, a6, a7, a8⟩
    | some depSt =>
      by_cases hp : depSt.status = .pending
      · have hred : markDependentsLoop failedId (depId :: rest) states tr =
            markDependentsLoop failedId rest
              (setState states depId { depSt with status := .skipped })
              { tr with events := tr.events ++
                  [⟨.failed, depId, 0, "Dependency " ++ failedId ++ " failed", none⟩] } := by
          simp only [markDependentsLoop, hlk, hp, if_pos]
        rw [hred]
        obtain ⟨a1, ⟨seg, a2, a3⟩, a4, a5, a6, a7, a8⟩ := ih
          (setState states depId { depSt with status := .skipped })
          { tr with events := tr.events ++
              [⟨.failed, depId, 0, "Dependency " ++ failedId ++ " failed", none⟩] }
        refine ⟨?_, ⟨⟨.failed, depId, 0, "Dependency " ++ failedId ++ " failed", none⟩ :: seg,
          ?_, ?_⟩, by simpa using a4, by simpa using a5, ?_, ?_, ?_⟩
        · intro x
          rcases a1 x with hsame | ⟨hx, stx, hx1, hx2, hx3⟩
          · by_cases hxd : x = depId
            · subst hxd
              right
              refine ⟨List.mem_cons_self x rest, depSt, hlk, hp, ?_⟩
              rw [hsame, lookupState_set_self]
            · left
              rw [hsame, lookupState_set_other states depId x _ hxd]
          · by_cases hxd : x = depId
            · subst hxd
              rw [lookupState_set_self] at hx1
              cases hx1
              simp at hx2
            · right
              rw [lookupState_set_other states depId x _ hxd] at hx1
              exact ⟨List.mem_cons_of_mem depId hx, stx, hx1, hx2, hx3⟩
        · rw [a2]
          simp [List.append_assoc]
        · intro e he
          rcases List.mem_cons.mp he with he | he
          · simp [he]
          · exact a3 e he
        · rw [a6]
          exact setState_length_of_present states depId _ (by simp [hlk])
        · intro x
          rw [a7 x]
          by_cases hxd : x = depId
          · subst hxd
            simp [lookupState_set_self, hlk]
          · rw [lookupState_set_other states depId x _ hxd]
        · rw [a8]
          exact setState_map_fst_of_present states depId _ (by simp [hlk])
      · have hred : markDependentsLoop failedId (depId :: rest) states tr =
            markDependentsLoop failedId rest states tr := by
          simp only [markDependentsLoop, hlk, hp, if_neg, if_false]
        rw [hred]
        obtain ⟨a1, ⟨seg, a2, a3⟩, a4, a5, a6, a7, a8⟩ := ih states tr
        exact ⟨fun x => (a1 x).imp id (fun hx => ⟨List.mem_cons_of_mem depId hx.1, hx.2⟩),
          ⟨seg, a2, a3⟩, a4, a5, a6, a7, a8⟩

end WorkflowEngine

namespace WorkflowEngine

/-! ## Helper lemmas for the orchestration induction -/

theorem setStatus_self (st : TaskState) (s : Status) (h : st.status = s) :
    { st with status := s } = st := by
  cases st
  cases h
  rfl

theorem mem_computeDependents (wf : List Task) (uid x : String) :
    x ∈ computeDependents wf uid ↔
      ∃ t ∈ wf, (t.dependencies.getD []).contains uid = true ∧ t.id = x := by
  unfold computeDependents
  simp only [List.mem_map, List.mem_filter]
  constructor
  · rintro ⟨t, ⟨ht, hc⟩, hid⟩
    exact ⟨t, ht, hc, hid⟩
  · rintro ⟨t, ht, hc, hid⟩
    exact ⟨t, ⟨ht, hc⟩, hid⟩

theorem areDependenciesCompleted_spec (t : Task) (states : StateMap)
    (h : areDependenciesCompleted t states = true) :
    ∀ d ∈ t.dependencies.getD [], ∃ sd, lookupState states d = some sd ∧
      sd.status = .completed := by
  intro d hd
  unfold areDependenciesCompleted at h
  cases hdep : t.dependencies with
  | none => rw [hdep] at hd; exact absurd hd (List.not_mem_nil d)
  | some deps =>
    rw [hdep] at h hd
    simp only [Option.getD_some] at hd
    have := (List.all_eq_true.mp h) d hd
    cases hlk : lookupState states d with
    | none => rw [hlk] at this; simp at this
    | some sd =>
      rw [hlk] at this
      exact ⟨sd, rfl, by simpa using this⟩

theorem depCheckFails_of_failed_dep (t : Task) (states : StateMap) (d : String)
    (hd : d ∈ t.dependencies.getD []) (sd : TaskState)
    (hlk : lookupState states d = some sd) (hsd : sd.status ≠ .completed) :
    depCheckFails t states = true := by
  unfold depCheckFails
  cases hdep : t.dependencies with
  | none => rw [hdep] at hd; exact absurd hd (List.not_mem_nil d)
  | some deps =>
    rw [hdep] at hd
    simp only [Option.getD_some] at hd
    simp only [Bool.and_eq_true, decide_eq_true_eq]
    refine ⟨List.length_pos.mpr (List.ne_nil_of_mem hd), ?_⟩
    simp only [Bool.not_eq_true']
    unfold areDependenciesCompleted
    rw [hdep]
    simp only [List.all_eq_false]
    refine ⟨d, hd, ?_⟩
    rw [hlk]
    simpa using hsd

theorem lookup_of_mem_keysNodup (m : StateMap) (hnd : (m.map Prod.fst).Nodup)
    (p : String × TaskState) (hp : p ∈ m) : lookupState m p.1 = some p.2 := by
  induction m with
  | nil => exact absurd hp (List.not_mem_nil p)
  | cons q rest ih =>
    rcases List.mem_cons.mp hp with he | hm
    · subst he
      simp [lookupState]
    · have hq : q.1 ≠ p.1 := by
        intro he
        have : q.1 ∈ rest.map Prod.fst := he ▸ List.mem_map_of_mem Prod.fst hm
        exact (List.nodup_cons.mp (by simpa using hnd)).1 this
      simp only [lookupState, hq, if_false]
      exact ih (List.nodup_cons.mp (by simpa using hnd)).2 hm

theorem init_foldl_keys (cfg : WorkflowEngineConfig) (wf : List Task) :
    ∀ (ts : List Task) (m : StateMap),
      (∀ t ∈ ts, lookupState m t.id = none) → (ts.map Task.id).Nodup →
      (ts.foldl (fun m t => setState m t.id (mkInitState cfg wf t)) m).map Prod.fst =
        m.map Prod.fst ++ ts.map Task.id := by
  intro ts
  induction ts with
  | nil => intro m _ _; simp
  | cons t ts ih =>
    intro m habs hnd
    have htid : t.id ∉ ts.map Task.id := (List.nodup_cons.mp (by simpa using hnd)).1
    have hnd2 : (ts.map Task.id).Nodup := (List.nodup_cons.mp (by simpa using hnd)).2
    simp only [List.foldl_cons]
    have hset : (setState m t.id (mkInitState cfg wf t)).map Prod.fst =
        m.map Prod.fst ++ [t.id] := by
      have habs0 := habs t (List.mem_cons_self t ts)
      clear ih habs htid hnd2 hnd
      induction m with
      | nil => simp [setState]
      | cons p rest ihm =>
        by_cases hp : p.1 = t.id
        · simp [lookupState, hp] at habs0
        · simp only [lookupState, hp, if_false] at habs0
          simp [setState, hp, ihm habs0]
    have habs2 : ∀ u ∈ ts, lookupState (setState m t.id (mkInitState cfg wf t)) u.id = none := by
      intro u hu
      have hne : u.id ≠ t.id := fun he => htid (he ▸ List.mem_map_of_mem Task.id hu)
      rw [lookupState_set_other m t.id u.id _ hne]
      exact habs u (List.mem_cons_of_mem t hu)
    rw [ih (setState m t.id (mkInitState cfg wf t)) habs2 hnd2, hset]
    simp

end WorkflowEngine

namespace WorkflowEngine

theorem init_keys (cfg : WorkflowEngineConfig) (wf : List Task)
    (hnd : (wf.map Task.id).Nodup) :
    (initializeTaskStates cfg wf).map Prod.fst = wf.map Task.id := by
  have h := init_foldl_keys cfg wf wf [] (fun t _ => rfl) hnd
  show (wf.foldl (fun m t => setState m t.id (mkInitState cfg wf t)) []).map Prod.fst = _
  rw [h]
  simp

theorem executeTasksAux_append (cfg : WorkflowEngineConfig) :
    ∀ (l1 l2 : List Task) (flag : Bool) (states : StateMap) (q : QueueState) (tr : Trace),
      executeTasksAux cfg (l1 ++ l2) flag states q tr =
        executeTasksAux cfg l2 (executeTasksAux cfg l1 flag states q tr).hasFailedTasks
          (executeTasksAux cfg l1 flag states q tr).states
          (executeTasksAux cfg l1 flag states q tr).queue
          (executeTasksAux cfg l1 flag states q tr).trace := by
  intro l1
  induction l1 with
  | nil => intro l2 flag states q tr; rfl
  | cons t l1 ih =>
    intro l2 flag states q tr
    show executeTasksAux cfg (t :: (l1 ++ l2)) flag states q tr = _
    cases hlk : lookupState states t.id with
    | none =>
      have h1 : executeTasksAux cfg (t :: (l1 ++ l2)) flag states q tr =
          executeTasksAux cfg (l1 ++ l2) flag states q tr := by
        simp only [executeTasksAux, hlk]
      have h2 : executeTasksAux cfg (t :: l1) flag states q tr =
          executeTasksAux cfg l1 flag states q tr := by
        simp only [executeTasksAux, hlk]
      rw [h1, h2, ih]
    | some st =>
      by_cases hdg : depCheckFails t states
      · have h1 : executeTasksAux cfg (t :: (l1 ++ l2)) flag states q tr =
            executeTasksAux cfg (l1 ++ l2) flag
              (setState states t.id { st with status := .skipped }) q
              { tr with events := tr.events ++
                  [⟨.failed, t.id, 0, "Dependency not completed", none⟩] } := by
          simp only [executeTasksAux, hlk, hdg, if_pos]
        have h2 : executeTasksAux cfg (t :: l1) flag states q tr =
            executeTasksAux cfg l1 flag
              (setState states t.id { st with status := .skipped }) q
              { tr with events := tr.events ++
                  [⟨.failed, t.id, 0, "Dependency not completed", none⟩] } := by
          simp only [executeTasksAux, hlk, hdg, if_pos]
        rw [h1, h2, ih]
      · by_cases hsucc : (executeTaskWithRetries cfg t st q tr).success
        · have h1 : executeTasksAux cfg (t :: (l1 ++ l2)) flag states q tr =
              executeTasksAux cfg (l1 ++ l2) flag
                (setState states t.id (executeTaskWithRetries cfg t st q tr).state)
                (executeTaskWithRetries cfg t st q tr).queue
                (executeTaskWithRetries cfg t st q tr).trace := by
            simp only [executeTasksAux, hlk, hdg, Bool.false_eq_true, if_false, hsucc, if_true]
          have h2 : executeTasksAux cfg (t :: l1) flag states q tr =
              executeTasksAux cfg l1 flag
                (setState states t.id (executeTaskWithRetries cfg t st q tr).state)
                (executeTaskWithRetries cfg t st q tr).queue
                (executeTaskWithRetries cfg t st q tr).trace := by
            simp only [executeTasksAux, hlk, hdg, Bool.false_eq_true, if_false, hsucc, if_true]
          rw [h1, h2, ih]
        · have h1 : executeTasksAux cfg (t :: (l1 ++ l2)) flag states q tr =
              executeTasksAux cfg (l1 ++ l2) true
                (markDependentsAsSkipped t.id
                  (setState states t.id (executeTaskWithRetries cfg t st q tr).state)
                  (executeTaskWithRetries cfg t st q tr).trace).1
                (executeTaskWithRetries cfg t st q tr).queue
                (markDependentsAsSkipped t.id
                  (setState states t.id (executeTaskWithRetries cfg t st q tr).state)
                  (executeTaskWithRetries cfg t st q tr).trace).2 := by
            simp only [executeTasksAux, hlk, hdg, Bool.false_eq_true, if_false, hsucc]
          have h2 : executeTasksAux cfg (t :: l1) flag states q tr =
              executeTasksAux cfg l1 true
                (markDependentsAsSkipped t.id
                  (setState states t.id (executeTaskWithRetries cfg t st q tr).state)
                  (executeTaskWithRetries cfg t st q tr).trace).1
                (executeTaskWithRetries cfg t st q tr).queue
                (markDependentsAsSkipped t.id
                  (setState states t.id (executeTaskWithRetries cfg t st q tr).state)
                  (executeTaskWithRetries cfg t st q tr).trace).2 := by
            simp only [executeTasksAux, hlk, hdg, Bool.false_eq_true, if_false, hsucc]
          rw [h1, h2, ih]

end WorkflowEngine

namespace WorkflowEngine

/-! ## The orchestration invariant for the `executeTasks` loop -/

/-- A task state is terminal: COMPLETED, FAILED or SKIPPED. -/
def Terminal (st : TaskState) : Prop :=
  st.status = Status.completed ∨ st.status = Status.failed ∨ st.status = Status.skipped

/-- Terminal entries of `states` survive unchanged into `states'`. -/
def Frozen (states states' : StateMap) : Prop :=
  ∀ x st, lookupState states x = some st → Terminal st → lookupState states' x = some st

theorem not_terminal_pending (st : TaskState) (h : st.status = Status.pending) :
    ¬ Terminal st := by
  intro ht
  rcases ht with h1 | h1 | h1 <;> rw [h] at h1 <;> cases h1

theorem executeTasksAux_cons_none (cfg : WorkflowEngineConfig) (u : Task) (l : List Task)
    (flag : Bool) (states : StateMap) (q : QueueState) (tr : Trace)
    (hlk : lookupState states u.id = none) :
    executeTasksAux cfg (u :: l) flag states q tr =
      executeTasksAux cfg l flag states q tr := by
  simp only [executeTasksAux, hlk]

theorem executeTasksAux_cons_skip (cfg : WorkflowEngineConfig) (u : Task) (l : List Task)
    (flag : Bool) (states : StateMap) (q : QueueState) (tr : Trace) (st : TaskState)
    (hlk : lookupState states u.id = some st) (hdg : depCheckFails u states = true) :
    executeTasksAux cfg (u :: l) flag states q tr =
      executeTasksAux cfg l flag (setState states u.id { st with status := Status.skipped }) q
        { tr with events := tr.events ++
            [⟨EventType.failed, u.id, 0, "Dependency not completed", none⟩] } := by
  simp only [executeTasksAux, hlk, hdg, if_pos]

theorem executeTasksAux_cons_ok (cfg : WorkflowEngineConfig) (u : Task) (l : List Task)
    (flag : Bool) (states : StateMap) (q : QueueState) (tr : Trace) (st : TaskState)
    (hlk : lookupState states u.id = some st) (hdg : depCheckFails u states = false)
    (hsucc : (executeTaskWithRetries cfg u st q tr).success = true) :
    executeTasksAux cfg (u :: l) flag states q tr =
      executeTasksAux cfg l flag
        (setState states u.id (executeTaskWithRetries cfg u st q tr).state)
        (executeTaskWithRetries cfg u st q tr).queue
        (executeTaskWithRetries cfg u st q tr).trace := by
  simp only [executeTasksAux, hlk, hdg, Bool.false_eq_true, if_false, hsucc, if_true]

theorem executeTasksAux_cons_fail (cfg : WorkflowEngineConfig) (u : Task) (l : List Task)
    (flag : Bool) (states : StateMap) (q : QueueState) (tr : Trace) (st : TaskState)
    (hlk : lookupState states u.id = some st) (hdg : depCheckFails u states = false)
    (hsucc : (executeTaskWithRetries cfg u st q tr).success = false) :
    executeTasksAux cfg (u :: l) flag states q tr =
      executeTasksAux cfg l true
        (markDependentsAsSkipped u.id
          (setState states u.id (executeTaskWithRetries cfg u st q tr).state)
          (executeTaskWithRetries cfg u st q tr).trace).1
        (executeTaskWithRetries cfg u st q tr).queue
        (markDependentsAsSkipped u.id
          (setState states u.id (executeTaskWithRetries cfg u st q tr).state)
          (executeTaskWithRetries cfg u st q tr).trace).2 := by
  simp only [executeTasksAux, hlk, hdg, Bool.false_eq_true, if_false, hsucc]

/-- The loop invariant of `executeTasks`: `wf` is the whole workflow, `rem`
the tasks still to be processed.  It ties the state map, the queue, the trace
and the failed flag to the processed prefix. -/
structure ExecInv (cfg : WorkflowEngineConfig) (wf rem : List Task)
    (states : StateMap) (q : QueueState) (tr : Trace) (flag : Bool) : Prop where
  keys : ∀ x, (lookupState states x).isSome = true ↔ x ∈ wf.map Task.id
  ids : ∀ x st, lookupState states x = some st →
    st.id = x ∧ st.dependents = computeDependents wf x
  len : states.length = wf.length
  keysNodup : (states.map Prod.fst).Nodup
  queue : q = ⟨[], cfg.maxConcurrentTasks⟩
  fresh : ∀ t ∈ rem, ∃ st, lookupState states t.id = some st ∧
    (st.status = Status.pending ∨ st.status = Status.skipped) ∧ st.attempts = 0 ∧
    (st.status = Status.skipped → ∃ d ∈ t.dependencies.getD [], ∃ sd,
      lookupState states d = some sd ∧ sd.status = Status.failed)
  freshEv : ∀ t ∈ rem,
    (∀ e ∈ tr.events, e.taskId = t.id → e.type ≠ EventType.started) ∧
    (∀ c ∈ tr.handlerCalls, c.1 ≠ t.id)
  doneTerminal : ∀ t ∈ wf, t ∉ rem → ∃ st, lookupState states t.id = some st ∧ Terminal st
  flagIff : flag = true ↔ ∃ x st, lookupState states x = some st ∧ st.status = Status.failed
  skipSound : ∀ t ∈ wf, t ∉ rem → ∀ st, lookupState states t.id = some st →
    (∃ d ∈ t.dependencies.getD [], ∀ sd, lookupState states d = some sd →
      sd.status ≠ Status.completed) →
    st.status = Status.skipped ∧ st.attempts = 0 ∧
    (∀ e ∈ tr.events, e.taskId = t.id → e.type ≠ EventType.started) ∧
    (∀ c ∈ tr.handlerCalls, c.1 ≠ t.id)
  completedEv : ∀ x st, lookupState states x = some st → st.status = Status.completed →
    ∃ e ∈ tr.events, e.taskId = x ∧ e.type = EventType.completed
  depGuard : DepGuard wf tr.events
  paired : PairedEvents tr.events

end WorkflowEngine

namespace WorkflowEngine

theorem execInv_step_skip (cfg : WorkflowEngineConfig) (wf : List Task) (u : Task)
    (rest : List Task) (states : StateMap) (q : QueueState) (tr : Trace) (flag : Bool)
    (humem : u ∈ wf)
    (hrestne : ∀ t ∈ rest, t.id ≠ u.id)
    (hdonene : ∀ t ∈ wf, t ∉ u :: rest → t.id ≠ u.id)
    (hInv : ExecInv cfg wf (u :: rest) states q tr flag)
    (st : TaskState) (hlk : lookupState states u.id = some st)
    (hdg : depCheckFails u states = true) :
    ExecInv cfg wf rest (setState states u.id { st with status := Status.skipped }) q
      { tr with events := tr.events ++
          [⟨EventType.failed, u.id, 0, "Dependency not completed", none⟩] } flag ∧
    Frozen states (setState states u.id { st with status := Status.skipped }) := by
  obtain ⟨st0, hlk0, hstat0, hatt0, hreason0⟩ := hInv.fresh u (List.mem_cons_self u rest)
  rw [hlk] at hlk0
  have hse : st = st0 := Option.some.inj hlk0
  subst hse
  have hpres : (lookupState states u.id).isSome = true := by simp [hlk]
  refine ⟨⟨?_, ?_, ?_, ?_, ?_, ?_, ?_, ?_, ?_, ?_, ?_, ?_, ?_⟩, ?_⟩
  · -- keys
    intro x
    rw [lookupState_isSome_set]
    constructor
    · rintro (h | rfl)
      · exact (hInv.keys x).mp h
      · exact List.mem_map_of_mem Task.id humem
    · intro h
      exact Or.inl ((hInv.keys x).mpr h)
  · -- ids
    intro x stx hx
    by_cases hxu : x = u.id
    · subst hxu
      rw [lookupState_set_self] at hx
      have hx' : stx = { st with status := Status.skipped } := (Option.some.inj hx).symm
      subst hx'
      exact hInv.ids u.id st hlk
    · rw [lookupState_set_other states u.id x _ hxu] at hx
      exact hInv.ids x stx hx
  · -- len
    exact (setState_length_of_present states u.id _ hpres).trans hInv.len
  · -- keysNodup
    rw [setState_map_fst_of_present states u.id _ hpres]
    exact hInv.keysNodup
  · -- queue
    exact hInv.queue
  · -- fresh
    intro t ht
    have hne : t.id ≠ u.id := hrestne t ht
    obtain ⟨stt, hltt, hstatt, hattt, hreasont⟩ := hInv.fresh t (List.mem_cons_of_mem u ht)
    refine ⟨stt, ?_, hstatt, hattt, ?_⟩
    · rw [lookupState_set_other states u.id t.id _ hne]
      exact hltt
    · intro hsk
      obtain ⟨d, hd, sd, hlsd, hsdf⟩ := hreasont hsk
      have hdne : d ≠ u.id := by
        intro he
        rw [he, hlk] at hlsd
        have hssd : st = sd := Option.some.inj hlsd
        rw [← hssd] at hsdf
        rcases hstat0 with hp | hp <;> (rw [hp] at hsdf; exact Status.noConfusion hsdf)
      refine ⟨d, hd, sd, ?_, hsdf⟩
      rw [lookupState_set_other states u.id d _ hdne]
      exact hlsd
  · -- freshEv
    intro t ht
    have hne := hrestne t ht
    obtain ⟨hev, hca⟩ := hInv.freshEv t (List.mem_cons_of_mem u ht)
    constructor
    · intro e he hid
      simp only [List.mem_append, List.mem_singleton] at he
      rcases he with he | he
      · exact hev e he hid
      · subst he
        exact absurd hid.symm hne
    · intro c hc
      exact hca c hc
  · -- doneTerminal
    intro t htw htnr
    by_cases hteq : t = u
    · subst hteq
      exact ⟨{ st with status := Status.skipped }, lookupState_set_self states t.id _,
        Or.inr (Or.inr rfl)⟩
    · have htno : t ∉ u :: rest := fun hmem => (List.mem_cons.mp hmem).elim hteq htnr
      obtain ⟨stt, hltt, htermt⟩ := hInv.doneTerminal t htw htno
      have hne : t.id ≠ u.id := hdonene t htw htno
      refine ⟨stt, ?_, htermt⟩
      rw [lookupState_set_other states u.id t.id _ hne]
      exact hltt
  · -- flagIff
    rw [hInv.flagIff]
    constructor
    · rintro ⟨x, stx, hx, hfx⟩
      have hxne : x ≠ u.id := by
        intro he
        rw [he, hlk] at hx
        have hsx : st = stx := Option.some.inj hx
        rw [← hsx] at hfx
        rcases hstat0 with hp | hp <;> (rw [hp] at hfx; exact Status.noConfusion hfx)
      refine ⟨x, stx, ?_, hfx⟩
      rw [lookupState_set_other states u.id x _ hxne]
      exact hx
    · rintro ⟨x, stx, hx, hfx⟩
      by_cases hxu : x = u.id
      · subst hxu
        rw [lookupState_set_self] at hx
        have hx' : stx = { st with status := Status.skipped } := (Option.some.inj hx).symm
        rw [hx'] at hfx
        exact absurd hfx (by exact fun h => Status.noConfusion h)
      · rw [lookupState_set_other states u.id x _ hxu] at hx
        exact ⟨x, stx, hx, hfx⟩
  · -- skipSound
    intro t htw htnr stt hstt hprem
    by_cases hteq : t = u
    · subst hteq
      rw [lookupState_set_self] at hstt
      have hstt' : stt = { st with status := Status.skipped } := (Option.some.inj hstt).symm
      subst hstt'
      obtain ⟨hev, hca⟩ := hInv.freshEv t (List.mem_cons_self t rest)
      refine ⟨rfl, hatt0, ?_, hca⟩
      intro e he hid
      simp only [List.mem_append, List.mem_singleton] at he
      rcases he with he | he
      · exact hev e he hid
      · subst he
        exact fun hty => EventType.noConfusion hty
    · have htno : t ∉ u :: rest := fun hmem => (List.mem_cons.mp hmem).elim hteq htnr
      have hne : t.id ≠ u.id := hdonene t htw htno
      rw [lookupState_set_other states u.id t.id _ hne] at hstt
      have hprem0 : ∃ d ∈ t.dependencies.getD [], ∀ sd, lookupState states d = some sd →
          sd.status ≠ Status.completed := by
        obtain ⟨d, hd, hall⟩ := hprem
        refine ⟨d, hd, ?_⟩
        intro sd hsd hcomp
        by_cases hdu : d = u.id
        · rw [hdu, hlk] at hsd
          have hssd : st = sd := Option.some.inj hsd
          rw [← hssd] at hcomp
          rcases hstat0 with hp | hp <;> (rw [hp] at hcomp; exact Status.noConfusion hcomp)
        · refine hall sd ?_ hcomp
          rw [lookupState_set_other states u.id d _ hdu]
          exact hsd
      obtain ⟨h1, h2, h3, h4⟩ := hInv.skipSound t htw htno stt hstt hprem0
      refine ⟨h1, h2, ?_, h4⟩
      intro e he hid
      simp only [List.mem_append, List.mem_singleton] at he
      rcases he with he | he
      · exact h3 e he hid
      · subst he
        exact fun hty => EventType.noConfusion hty
  · -- completedEv
    intro x stx hx hcx
    by_cases hxu : x = u.id
    · subst hxu
      rw [lookupState_set_self] at hx
      have hx' : stx = { st with status := Status.skipped } := (Option.some.inj hx).symm
      rw [hx'] at hcx
      exact absurd hcx (fun h => Status.noConfusion h)
    · rw [lookupState_set_other states u.id x _ hxu] at hx
      obtain ⟨e, he, het⟩ := hInv.completedEv x stx hx hcx
      exact ⟨e, List.mem_append_left _ he, het⟩
  · -- depGuard
    exact depGuard_append_nonstarted wf tr.events _ hInv.depGuard
      (fun h => EventType.noConfusion h)
  · -- paired
    refine pairedEvents_append tr.events _ hInv.paired ?_
    intro _ ha
    exact absurd ha (Nat.not_succ_le_zero 0)
  · -- Frozen
    intro x stx hx hterm
    by_cases hxu : x = u.id
    · subst hxu
      rw [hlk] at hx
      have hxe : st = stx := Option.some.inj hx
      rcases hstat0 with hp | hp
      · rw [← hxe] at hterm
        exact absurd hterm (not_terminal_pending st hp)
      · rw [lookupState_set_self, setStatus_self st Status.skipped hp, hxe]
    · rw [lookupState_set_other states u.id x _ hxu]
      exact hx

end WorkflowEngine

namespace WorkflowEngine

theorem execInv_run_prelim (cfg : WorkflowEngineConfig) (wf : List Task) (u : Task)
    (rest : List Task) (states : StateMap) (q : QueueState) (tr : Trace) (flag : Bool)
    (hcap : 1 ≤ cfg.maxConcurrentTasks)
    (hInv : ExecInv cfg wf (u :: rest) states q tr flag)
    (st : TaskState) (hlk : lookupState states u.id = some st)
    (hdg : depCheckFails u states = false) :
    st.status = Status.pending ∧ st.attempts = 0 ∧ canExecuteTask q u.id = true ∧
    (∀ d ∈ u.dependencies.getD [], ∃ sd, lookupState states d = some sd ∧
      sd.status = Status.completed) := by
  obtain ⟨st0, hlk0, hstat0, hatt0, hreason0⟩ := hInv.fresh u (List.mem_cons_self u rest)
  rw [hlk] at hlk0
  have hse : st = st0 := Option.some.inj hlk0
  subst hse
  have hpend : st.status = Status.pending := by
    rcases hstat0 with hp | hp
    · exact hp
    · obtain ⟨d, hd, sd, hlsd, hsdf⟩ := hreason0 hp
      have hfail := depCheckFails_of_failed_dep u states d hd sd hlsd
        (by rw [hsdf]; exact fun h => Status.noConfusion h)
      rw [hfail] at hdg
      exact Bool.noConfusion hdg
  have hq : canExecuteTask q u.id = true := by
    rw [hInv.queue]
    simp only [canExecuteTask, List.contains_nil, Bool.false_eq_true, if_false,
      List.length_nil, Int.Nat.cast_ofNat_Int, ge_iff_le, if_true]
    rw [if_neg (by omega)]
  have hdepcomp : ∀ d ∈ u.dependencies.getD [], ∃ sd, lookupState states d = some sd ∧
      sd.status = Status.completed := by
    intro d hd
    cases hdep : u.dependencies with
    | none =>
      rw [hdep] at hd
      exact absurd hd (List.not_mem_nil d)
    | some deps =>
      rw [hdep] at hd
      simp only [Option.getD_some] at hd
      unfold depCheckFails at hdg
      rw [hdep] at hdg
      by_cases hlen : 0 < deps.length
      · simp only [decide_eq_true hlen, Bool.true_and, Bool.not_eq_false'] at hdg
        exact areDependenciesCompleted_spec u states hdg d
          (by rw [hdep]; simpa using hd)
      · have hnil : deps = [] := by
          cases deps with
          | nil => rfl
          | cons a l => exact absurd (by simp) hlen
        rw [hnil] at hd
        exact absurd hd (List.not_mem_nil d)
  exact ⟨hpend, hatt0, hq, hdepcomp⟩

end WorkflowEngine

namespace WorkflowEngine

theorem execInv_step_ok (cfg : WorkflowEngineConfig) (wf : List Task) (u : Task)
    (rest : List Task) (states : StateMap) (q : QueueState) (tr : Trace) (flag : Bool)
    (humem : u ∈ wf)
    (hrestne : ∀ t ∈ rest, t.id ≠ u.id)
    (hdonene : ∀ t ∈ wf, t ∉ u :: rest → t.id ≠ u.id)
    (hidinj : ∀ a ∈ wf, ∀ b ∈ wf, a.id = b.id → a = b)
    (hcap : 1 ≤ cfg.maxConcurrentTasks)
    (hretu : 0 ≤ u.retries.getD cfg.defaultRetries)
    (hInv : ExecInv cfg wf (u :: rest) states q tr flag)
    (st : TaskState) (hlk : lookupState states u.id = some st)
    (hdg : depCheckFails u states = false)
    (r : ExecResult) (hr : executeTaskWithRetries cfg u st q tr = r)
    (hsucc : r.success = true) :
    ExecInv cfg wf rest (setState states u.id r.state) r.queue r.trace flag ∧
    Frozen states (setState states u.id r.state) := by
  obtain ⟨hpend, hatt0, hq, hdepcomp⟩ :=
    execInv_run_prelim cfg wf u rest states q tr flag hcap hInv st hlk hdg
  have F := executeTaskWithRetries_facts cfg u st q tr hq hatt0 hretu
  rw [hr] at F
  obtain ⟨fq, ⟨fid, fdeps, fdepd, fmaxr⟩, fsuccS, ffailS, ⟨seg, fse, fsid, fscomp⟩,
    ⟨cs, fcs, fcsid⟩, fP, fpaired, fsteps⟩ := F
  have hstatus : r.state.status = Status.completed := fsuccS hsucc
  have hids0 := hInv.ids u.id st hlk
  have hpres : (lookupState states u.id).isSome = true := by simp [hlk]
  refine ⟨⟨?_, ?_, ?_, ?_, ?_, ?_, ?_, ?_, ?_, ?_, ?_, ?_, ?_⟩, ?_⟩
  · -- keys
    intro x
    rw [lookupState_isSome_set]
    constructor
    · rintro (h | rfl)
      · exact (hInv.keys x).mp h
      · exact List.mem_map_of_mem Task.id humem
    · intro h
      exact Or.inl ((hInv.keys x).mpr h)
  · -- ids
    intro x stx hx
    by_cases hxu : x = u.id
    · subst hxu
      rw [lookupState_set_self] at hx
      have hx' : stx = r.state := (Option.some.inj hx).symm
      subst hx'
      exact ⟨fid.trans hids0.1, fdepd.trans hids0.2⟩
    · rw [lookupState_set_other states u.id x _ hxu] at hx
      exact hInv.ids x stx hx
  · -- len
    exact (setState_length_of_present states u.id _ hpres).trans hInv.len
  · -- keysNodup
    rw [setState_map_fst_of_present states u.id _ hpres]
    exact hInv.keysNodup
  · -- queue
    rw [fq]
    exact hInv.queue
  · -- fresh
    intro t ht
    have hne : t.id ≠ u.id := hrestne t ht
    obtain ⟨stt, hltt, hstatt, hattt, hreasont⟩ := hInv.fresh t (List.mem_cons_of_mem u ht)
    refine ⟨stt, ?_, hstatt, hattt, ?_⟩
    · rw [lookupState_set_other states u.id t.id _ hne]
      exact hltt
    · intro hsk
      obtain ⟨d, hd, sd, hlsd, hsdf⟩ := hreasont hsk
      have hdne : d ≠ u.id := by
        intro he
        rw [he, hlk] at hlsd
        have hssd : st = sd := Option.some.inj hlsd
        rw [← hssd, hpend] at hsdf
        exact Status.noConfusion hsdf
      refine ⟨d, hd, sd, ?_, hsdf⟩
      rw [lookupState_set_other states u.id d _ hdne]
      exact hlsd
  · -- freshEv
    intro t ht
    have hne := hrestne t ht
    obtain ⟨hev, hca⟩ := hInv.freshEv t (List.mem_cons_of_mem u ht)
    constructor
    · intro e he hid
      rw [fse] at he
      rcases List.mem_append.mp he with he | he
      · exact hev e he hid
      · rw [fsid e he] at hid
        exact absurd hid.symm hne
    · intro c hc
      rw [fcs] at hc
      rcases List.mem_append.mp hc with hc | hc
      · exact hca c hc
      · rw [fcsid c hc]
        exact fun he => hne he.symm
  · -- doneTerminal
    intro t htw htnr
    by_cases hteq : t = u
    · subst hteq
      exact ⟨r.state, lookupState_set_self states t.id _, Or.inl hstatus⟩
    · have htno : t ∉ u :: rest := fun hmem => (List.mem_cons.mp hmem).elim hteq htnr
      obtain ⟨stt, hltt, htermt⟩ := hInv.doneTerminal t htw htno
      have hne : t.id ≠ u.id := hdonene t htw htno
      refine ⟨stt, ?_, htermt⟩
      rw [lookupState_set_other states u.id t.id _ hne]
      exact hltt
  · -- flagIff
    rw [hInv.flagIff]
    constructor
    · rintro ⟨x, stx, hx, hfx⟩
      have hxne : x ≠ u.id := by
        intro he
        rw [he, hlk] at hx
        have hsx : st = stx := Option.some.inj hx
        rw [← hsx, hpend] at hfx
        exact Status.noConfusion hfx
      refine ⟨x, stx, ?_, hfx⟩
      rw [lookupState_set_other states u.id x _ hxne]
      exact hx
    · rintro ⟨x, stx, hx, hfx⟩
      by_cases hxu : x = u.id
      · subst hxu
        rw [lookupState_set_self] at hx
        have hx' : stx = r.state := (Option.some.inj hx).symm
        rw [hx', hstatus] at hfx
        exact absurd hfx (fun h => Status.noConfusion h)
      · rw [lookupState_set_other states u.id x _ hxu] at hx
        exact ⟨x, stx, hx, hfx⟩
  · -- skipSound
    intro t htw htnr stt hstt hprem
    by_cases hteq : t = u
    · subst hteq
      obtain ⟨d, hd, hall⟩ := hprem
      obtain ⟨sd, hlsd, hcomp⟩ := hdepcomp d hd
      have hdne : d ≠ t.id := by
        intro he
        rw [he, hlk] at hlsd
        have hssd : st = sd := Option.some.inj hlsd
        rw [← hssd, hpend] at hcomp
        exact Status.noConfusion hcomp
      refine absurd hcomp (hall sd ?_)
      rw [lookupState_set_other states t.id d _ hdne]
      exact hlsd
    · have htno : t ∉ u :: rest := fun hmem => (List.mem_cons.mp hmem).elim hteq htnr
      have hne : t.id ≠ u.id := hdonene t htw htno
      rw [lookupState_set_other states u.id t.id _ hne] at hstt
      have hprem0 : ∃ d ∈ t.dependencies.getD [], ∀ sd, lookupState states d = some sd →
          sd.status ≠ Status.completed := by
        obtain ⟨d, hd, hall⟩ := hprem
        refine ⟨d, hd, ?_⟩
        intro sd hsd hcomp
        by_cases hdu : d = u.id
        · rw [hdu, hlk] at hsd
          have hssd : st = sd := Option.some.inj hsd
          rw [← hssd, hpend] at hcomp
          exact Status.noConfusion hcomp
        · refine hall sd ?_ hcomp
          rw [lookupState_set_other states u.id d _ hdu]
          exact hsd
      obtain ⟨h1, h2, h3, h4⟩ := hInv.skipSound t htw htno stt hstt hprem0
      refine ⟨h1, h2, ?_, ?_⟩
      · intro e he hid
        rw [fse] at he
        rcases List.mem_append.mp he with he | he
        · exact h3 e he hid
        · rw [fsid e he] at hid
          exact absurd hid.symm hne
      · intro c hc
        rw [fcs] at hc
        rcases List.mem_append.mp hc with hc | hc
        · exact h4 c hc
        · rw [fcsid c hc]
          exact fun he => hne he.symm
  · -- completedEv
    intro x stx hx hcx
    by_cases hxu : x = u.id
    · subst hxu
      obtain ⟨e, he, heid, hety⟩ := fscomp hsucc
      refine ⟨e, ?_, heid, hety⟩
      rw [fse]
      exact List.mem_append_right _ he
    · rw [lookupState_set_other states u.id x _ hxu] at hx
      obtain ⟨e, he, het⟩ := hInv.completedEv x stx hx hcx
      refine ⟨e, ?_, het⟩
      rw [fse]
      exact List.mem_append_left _ he
  · -- depGuard
    have hdepev : ∀ d ∈ u.dependencies.getD [], ∃ e ∈ tr.events,
        e.taskId = d ∧ e.type = EventType.completed := by
      intro d hd
      obtain ⟨sd, hlsd, hc⟩ := hdepcomp d hd
      exact hInv.completedEv d sd hlsd hc
    refine fP (fun evs => DepGuard wf evs) ?_ hInv.depGuard
    intro evs ev hP hevid hpre
    obtain ⟨s, hs⟩ := hpre
    by_cases hty : ev.type = EventType.started
    · refine depGuard_append_started wf evs ev hP ?_
      intro t2 ht2 htid2 d hd
      have ht2u : t2 = u := hidinj t2 ht2 u humem (by rw [htid2, hevid])
      subst ht2u
      obtain ⟨e, he, heid, hety⟩ := hdepev d hd
      refine ⟨e, ?_, heid, hety⟩
      rw [hs]
      exact List.mem_append_left _ he
    · exact depGuard_append_nonstarted wf evs ev hP hty
  · -- paired
    exact fpaired hInv.paired
  · -- Frozen
    intro x stx hx hterm
    by_cases hxu : x = u.id
    · subst hxu
      rw [hlk] at hx
      have hxe : st = stx := Option.some.inj hx
      rw [← hxe] at hterm
      exact absurd hterm (not_terminal_pending st hpend)
    · rw [lookupState_set_other states u.id x _ hxu]
      exact hx

end WorkflowEngine

namespace WorkflowEngine

theorem execInv_step_fail (cfg : WorkflowEngineConfig) (wf : List Task) (u : Task)
    (rest : List Task) (states : StateMap) (q : QueueState) (tr : Trace) (flag : Bool)
    (humem : u ∈ wf)
    (hsub : ∀ t ∈ rest, t ∈ wf)
    (hrestne : ∀ t ∈ rest, t.id ≠ u.id)
    (hdonene : ∀ t ∈ wf, t ∉ u :: rest → t.id ≠ u.id)
    (hidinj : ∀ a ∈ wf, ∀ b ∈ wf, a.id = b.id → a = b)
    (hcap : 1 ≤ cfg.maxConcurrentTasks)
    (hretu : 0 ≤ u.retries.getD cfg.defaultRetries)
    (hInv : ExecInv cfg wf (u :: rest) states q tr flag)
    (st : TaskState) (hlk : lookupState states u.id = some st)
    (hdg : depCheckFails u states = false)
    (r : ExecResult) (hr : executeTaskWithRetries cfg u st q tr = r)
    (hsucc : r.success = false)
    (m2 : StateMap × Trace)
    (hm : markDependentsAsSkipped u.id (setState states u.id r.state) r.trace = m2) :
    ExecInv cfg wf rest m2.1 r.queue m2.2 true ∧ Frozen states m2.1 := by
  obtain ⟨hpend, hatt0, hq, hdepcomp⟩ :=
    execInv_run_prelim cfg wf u rest states q tr flag hcap hInv st hlk hdg
  have F := executeTaskWithRetries_facts cfg u st q tr hq hatt0 hretu
  rw [hr] at F
  obtain ⟨fq, ⟨fid, fdeps, fdepd, fmaxr⟩, fsuccS, ffailS, ⟨seg, fse, fsid, fscomp⟩,
    ⟨cs, fcs, fcsid⟩, fP, fpaired, fsteps⟩ := F
  have hstatus : r.state.status = Status.failed := ffailS hsucc
  have hids0 := hInv.ids u.id st hlk
  have hpres : (lookupState states u.id).isSome = true := by simp [hlk]
  have hlk1self : lookupState (setState states u.id r.state) u.id = some r.state :=
    lookupState_set_self states u.id r.state
  have hmdef : markDependentsAsSkipped u.id (setState states u.id r.state) r.trace =
      markDependentsLoop u.id r.state.dependents (setState states u.id r.state) r.trace := by
    unfold markDependentsAsSkipped
    rw [hlk1self]
  have hloop : markDependentsLoop u.id r.state.dependents
      (setState states u.id r.state) r.trace = m2 := hmdef.symm.trans hm
  have M := markDependentsLoop_facts u.id r.state.dependents
    (setState states u.id r.state) r.trace
  rw [hloop] at M
  obtain ⟨mchar, ⟨mseg, mse, msev⟩, mcalls, msteps, mlen, msome, mkeys⟩ := M
  have hdepD : r.state.dependents = computeDependents wf u.id := fdepd.trans hids0.2
  have hlk2u : lookupState m2.1 u.id = some r.state := by
    rcases mchar u.id with h | ⟨-, stx, h1, hpend0, -⟩
    · rw [h]
      exact hlk1self
    · rw [hlk1self] at h1
      have hre : r.state = stx := Option.some.inj h1
      rw [← hre, hstatus] at hpend0
      exact Status.noConfusion hpend0
  have hpreserve : ∀ x sx, lookupState states x = some sx → sx.status ≠ Status.pending →
      x ≠ u.id → lookupState m2.1 x = some sx := by
    intro x sx hx hnp hxu
    have hx1 : lookupState (setState states u.id r.state) x = some sx := by
      rw [lookupState_set_other states u.id x _ hxu]
      exact hx
    rcases mchar x with h | ⟨-, stx0, h1, hpend0, -⟩
    · rw [h]
      exact hx1
    · rw [hx1] at h1
      have hse : sx = stx0 := Option.some.inj h1
      rw [← hse] at hpend0
      exact absurd hpend0 hnp
  have hids1 : ∀ x stx, lookupState (setState states u.id r.state) x = some stx →
      stx.id = x ∧ stx.dependents = computeDependents wf x := by
    intro x stx hx
    by_cases hxu : x = u.id
    · subst hxu
      rw [hlk1self] at hx
      have hxe : r.state = stx := Option.some.inj hx
      rw [← hxe]
      exact ⟨fid.trans hids0.1, fdepd.trans hids0.2⟩
    · rw [lookupState_set_other states u.id x _ hxu] at hx
      exact hInv.ids x stx hx
  refine ⟨⟨?_, ?_, ?_, ?_, ?_, ?_, ?_, ?_, ?_, ?_, ?_, ?_, ?_⟩, ?_⟩
  · -- keys
    intro x
    rw [msome x, lookupState_isSome_set]
    constructor
    · rintro (h | rfl)
      · exact (hInv.keys x).mp h
      · exact List.mem_map_of_mem Task.id humem
    · intro h
      exact Or.inl ((hInv.keys x).mpr h)
  · -- ids
    intro x stx hx
    rcases mchar x with h | ⟨-, stx0, h1, hpend0, h2⟩
    · rw [h] at hx
      exact hids1 x stx hx
    · rw [h2] at hx
      have hxe : stx = { stx0 with status := Status.skipped } := (Option.some.inj hx).symm
      subst hxe
      exact hids1 x stx0 h1
  · -- len
    exact mlen.trans ((setState_length_of_present states u.id _ hpres).trans hInv.len)
  · -- keysNodup
    rw [mkeys, setState_map_fst_of_present states u.id _ hpres]
    exact hInv.keysNodup
  · -- queue
    rw [fq]
    exact hInv.queue
  · -- fresh
    intro t ht
    have hne : t.id ≠ u.id := hrestne t ht
    obtain ⟨stt, hltt, hstatt, hattt, hreasont⟩ := hInv.fresh t (List.mem_cons_of_mem u ht)
    have hlt1 : lookupState (setState states u.id r.state) t.id = some stt := by
      rw [lookupState_set_other states u.id t.id _ hne]
      exact hltt
    rcases mchar t.id with h | ⟨hmem, stx0, h1, hpend0, h2⟩
    · refine ⟨stt, by rw [h]; exact hlt1, hstatt, hattt, ?_⟩
      intro hsk
      obtain ⟨d, hd, sd, hlsd, hsdf⟩ := hreasont hsk
      have hdne : d ≠ u.id := by
        intro he
        rw [he, hlk] at hlsd
        have hssd : st = sd := Option.some.inj hlsd
        rw [← hssd, hpend] at hsdf
        exact Status.noConfusion hsdf
      exact ⟨d, hd, sd,
        hpreserve d sd hlsd (by rw [hsdf]; exact fun hh => Status.noConfusion hh) hdne, hsdf⟩
    · rw [hlt1] at h1
      have hst0 : stt = stx0 := Option.some.inj h1
      subst hst0
      refine ⟨{ stt with status := Status.skipped }, h2, Or.inr rfl, hattt, ?_⟩
      intro _
      rw [hdepD] at hmem
      obtain ⟨t', ht'w, hcont, ht'id⟩ := (mem_computeDependents wf u.id t.id).mp hmem
      have ht't : t' = t := hidinj t' ht'w t (hsub t ht) ht'id
      subst ht't
      have hdin : u.id ∈ t'.dependencies.getD [] := by simpa using hcont
      exact ⟨u.id, hdin, r.state, hlk2u, hstatus⟩
  · -- freshEv
    intro t ht
    have hne := hrestne t ht
    obtain ⟨hev, hca⟩ := hInv.freshEv t (List.mem_cons_of_mem u ht)
    constructor
    · intro e he hid
      rw [mse] at he
      rcases List.mem_append.mp he with he | he
      · rw [fse] at he
        rcases List.mem_append.mp he with he | he
        · exact hev e he hid
        · rw [fsid e he] at hid
          exact absurd hid.symm hne
      · intro hty
        rw [(msev e he).1] at hty
        exact EventType.noConfusion hty
    · intro c hc
      rw [mcalls, fcs] at hc
      rcases List.mem_append.mp hc with hc | hc
      · exact hca c hc
      · rw [fcsid c hc]
        exact fun he => hne he.symm
  · -- doneTerminal
    intro t htw htnr
    by_cases hteq : t = u
    · subst hteq
      exact ⟨r.state, hlk2u, Or.inr (Or.inl hstatus)⟩
    · have htno : t ∉ u :: rest := fun hmem => (List.mem_cons.mp hmem).elim hteq htnr
      obtain ⟨stt, hltt, htermt⟩ := hInv.doneTerminal t htw htno
      have hne : t.id ≠ u.id := hdonene t htw htno
      exact ⟨stt, hpreserve t.id stt hltt
        (fun hp => not_terminal_pending stt hp htermt) hne, htermt⟩
  · -- flagIff
    exact ⟨fun _ => ⟨u.id, r.state, hlk2u, hstatus⟩, fun _ => rfl⟩
  · -- skipSound
    intro t htw htnr stt hstt hprem
    by_cases hteq : t = u
    · subst hteq
      obtain ⟨d, hd, hall⟩ := hprem
      obtain ⟨sd, hlsd, hcomp⟩ := hdepcomp d hd
      have hdne : d ≠ t.id := by
        intro he
        rw [he, hlk] at hlsd
        have hssd : st = sd := Option.some.inj hlsd
        rw [← hssd, hpend] at hcomp
        exact Status.noConfusion hcomp
      exact absurd hcomp (hall sd (hpreserve d sd hlsd
        (by rw [hcomp]; exact fun hh => Status.noConfusion hh) hdne))
    · have htno : t ∉ u :: rest := fun hmem => (List.mem_cons.mp hmem).elim hteq htnr
      have hne : t.id ≠ u.id := hdonene t htw htno
      obtain ⟨sttw, hlttw, htermw⟩ := hInv.doneTerminal t htw htno
      have hstt0 : lookupState states t.id = some stt := by
        have hm2t : lookupState m2.1 t.id = some sttw := hpreserve t.id sttw hlttw
          (fun hp => not_terminal_pending sttw hp htermw) hne
        rw [hm2t] at hstt
        have hwe : sttw = stt := Option.some.inj hstt
        rw [← hwe]
        exact hlttw
      have hprem0 : ∃ d ∈ t.dependencies.getD [], ∀ sd, lookupState states d = some sd →
          sd.status ≠ Status.completed := by
        obtain ⟨d, hd, hall⟩ := hprem
        refine ⟨d, hd, ?_⟩
        intro sd0 h0 hcomp0
        by_cases hdu : d = u.id
        · rw [hdu, hlk] at h0
          have hssd : st = sd0 := Option.some.inj h0
          rw [← hssd, hpend] at hcomp0
          exact Status.noConfusion hcomp0
        · exact hall sd0 (hpreserve d sd0 h0
            (by rw [hcomp0]; exact fun hh => Status.noConfusion hh) hdu) hcomp0
      obtain ⟨h1, h2, h3, h4⟩ := hInv.skipSound t htw htno stt hstt0 hprem0
      refine ⟨h1, h2, ?_, ?_⟩
      · intro e he hid
        rw [mse] at he
        rcases List.mem_append.mp he with he | he
        · rw [fse] at he
          rcases List.mem_append.mp he with he | he
          · exact h3 e he hid
          · rw [fsid e he] at hid
            exact absurd hid.symm hne
        · intro hty
          rw [(msev e he).1] at hty
          exact EventType.noConfusion hty
      · intro c hc
        rw [mcalls, fcs] at hc
        rcases List.mem_append.mp hc with hc | hc
        · exact h4 c hc
        · rw [fcsid c hc]
          exact fun he => hne he.symm
  · -- completedEv
    intro x stx hx hcx
    by_cases hxu : x = u.id
    · subst hxu
      rw [hlk2u] at hx
      have hxe : r.state = stx := Option.some.inj hx
      rw [← hxe, hstatus] at hcx
      exact absurd hcx (fun h => Status.noConfusion h)
    · rcases mchar x with h | ⟨-, stx0, h1, hpend0, h2⟩
      · rw [h, lookupState_set_other states u.id x _ hxu] at hx
        obtain ⟨e, he, het⟩ := hInv.completedEv x stx hx hcx
        refine ⟨e, ?_, het⟩
        rw [mse, fse]
        exact List.mem_append_left _ (List.mem_append_left _ he)
      · rw [h2] at hx
        have hxe : stx = { stx0 with status := Status.skipped } := (Option.some.inj hx).symm
        rw [hxe] at hcx
        exact absurd hcx (fun h => Status.noConfusion h)
  · -- depGuard
    have hdepev : ∀ d ∈ u.dependencies.getD [], ∃ e ∈ tr.events,
        e.taskId = d ∧ e.type = EventType.completed := by
      intro d hd
      obtain ⟨sd, hlsd, hc⟩ := hdepcomp d hd
      exact hInv.completedEv d sd hlsd hc
    have hgP : DepGuard wf r.trace.events := by
      refine fP (fun evs => DepGuard wf evs) ?_ hInv.depGuard
      intro evs ev hP hevid hpre
      obtain ⟨s, hs⟩ := hpre
      by_cases hty : ev.type = EventType.started
      · refine depGuard_append_started wf evs ev hP ?_
        intro t2 ht2 htid2 d hd
        have ht2u : t2 = u := hidinj t2 ht2 u humem (by rw [htid2, hevid])
        subst ht2u
        obtain ⟨e, he, heid, hety⟩ := hdepev d hd
        refine ⟨e, ?_, heid, hety⟩
        rw [hs]
        exact List.mem_append_left _ he
      · exact depGuard_append_nonstarted wf evs ev hP hty
    rw [mse]
    refine depGuard_append_seg wf r.trace.events mseg hgP ?_
    intro e he hty
    rw [(msev e he).1] at hty
    exact EventType.noConfusion hty
  · -- paired
    rw [mse]
    exact pairedEvents_append_seg r.trace.events mseg (fpaired hInv.paired)
      (fun e he => (msev e he).2)
  · -- Frozen
    intro x stx hx hterm
    by_cases hxu : x = u.id
    · subst hxu
      rw [hlk] at hx
      have hxe : st = stx := Option.some.inj hx
      rw [← hxe] at hterm
      exact absurd hterm (not_terminal_pending st hpend)
    · exact hpreserve x stx hx (fun hp => not_terminal_pending stx hp hterm) hxu

end WorkflowEngine

namespace WorkflowEngine

theorem executeTasksAux_master (cfg : WorkflowEngineConfig) (wf : List Task)
    (hnd : (wf.map Task.id).Nodup)
    (hret : ∀ t ∈ wf, 0 ≤ t.retries.getD cfg.defaultRetries)
    (hcap : 1 ≤ cfg.maxConcurrentTasks) :
    ∀ (rem done : List Task) (flag : Bool) (states : StateMap) (q : QueueState) (tr : Trace),
      wf = done ++ rem →
      ExecInv cfg wf rem states q tr flag →
      ∀ r1 r2, rem = r1 ++ r2 →
        ExecInv cfg wf r2 (executeTasksAux cfg r1 flag states q tr).states
          (executeTasksAux cfg r1 flag states q tr).queue
          (executeTasksAux cfg r1 flag states q tr).trace
          (executeTasksAux cfg r1 flag states q tr).hasFailedTasks ∧
        Frozen states (executeTasksAux cfg r1 flag states q tr).states := by
  have hidinj : ∀ a ∈ wf, ∀ b ∈ wf, a.id = b.id → a = b :=
    fun a ha b hb hab => List.inj_on_of_nodup_map hnd ha hb hab
  intro rem
  induction rem with
  | nil =>
    intro done flag states q tr hwf hInv r1 r2 hsplit
    have h1 : r1 = [] := by
      cases r1 with
      | nil => rfl
      | cons a l => exact absurd hsplit (by simp)
    subst h1
    have h2 : r2 = [] := by simpa using hsplit
    subst h2
    exact ⟨hInv, fun x stx hx _ => hx⟩
  | cons u rest ih =>
    intro done flag states q tr hwf hInv r1 r2 hsplit
    have humem : u ∈ wf := hwf ▸ List.mem_append_right done (List.mem_cons_self u rest)
    have hsub : ∀ t ∈ rest, t ∈ wf := fun t ht =>
      hwf ▸ List.mem_append_right done (List.mem_cons_of_mem u ht)
    have hrestne : ∀ t ∈ rest, t.id ≠ u.id := by
      have hmapsplit : (wf.map Task.id) = done.map Task.id ++ (u :: rest).map Task.id := by
        rw [hwf, List.map_append]
      have hnd2 : ((u :: rest).map Task.id).Nodup := by
        rw [hmapsplit] at hnd
        exact hnd.of_append_right
      have hni : u.id ∉ rest.map Task.id := (List.nodup_cons.mp (by simpa using hnd2)).1
      intro t ht he
      exact hni (he ▸ List.mem_map_of_mem Task.id ht)
    have hdonene : ∀ t ∈ wf, t ∉ u :: rest → t.id ≠ u.id := by
      intro t htw htno he
      have hte : t = u := hidinj t htw u humem he
      rw [hte] at htno
      exact htno (List.mem_cons_self u rest)
    have hpresu : (lookupState states u.id).isSome = true :=
      (hInv.keys u.id).mpr (List.mem_map_of_mem Task.id humem)
    cases hlk : lookupState states u.id with
    | none =>
      rw [hlk] at hpresu
      simp at hpresu
    | some st =>
      have hstep : ∃ flag1 states1 q1 tr1,
          (∀ l, executeTasksAux cfg (u :: l) flag states q tr =
            executeTasksAux cfg l flag1 states1 q1 tr1) ∧
          ExecInv cfg wf rest states1 q1 tr1 flag1 ∧ Frozen states states1 := by
        by_cases hdg : depCheckFails u states = true
        · obtain ⟨hI, hF⟩ := execInv_step_skip cfg wf u rest states q tr flag humem
            hrestne hdonene hInv st hlk hdg
          exact ⟨flag, setState states u.id { st with status := Status.skipped }, q,
            { tr with events := tr.events ++
                [⟨EventType.failed, u.id, 0, "Dependency not completed", none⟩] },
            fun l => executeTasksAux_cons_skip cfg u l flag states q tr st hlk hdg, hI, hF⟩
        · have hdg' : depCheckFails u states = false := by simpa using hdg
          by_cases hsucc : (executeTaskWithRetries cfg u st q tr).success = true
          · obtain ⟨hI, hF⟩ := execInv_step_ok cfg wf u rest states q tr flag humem
              hrestne hdonene hidinj hcap (hret u humem) hInv st hlk hdg'
              (executeTaskWithRetries cfg u st q tr) rfl hsucc
            exact ⟨flag, setState states u.id (executeTaskWithRetries cfg u st q tr).state,
              (executeTaskWithRetries cfg u st q tr).queue,
              (executeTaskWithRetries cfg u st q tr).trace,
              fun l => executeTasksAux_cons_ok cfg u l flag states q tr st hlk hdg' hsucc,
              hI, hF⟩
          · have hsucc' : (executeTaskWithRetries cfg u st q tr).success = false := by
              simpa using hsucc
            obtain ⟨hI, hF⟩ := execInv_step_fail cfg wf u rest states q tr flag humem hsub
              hrestne hdonene hidinj hcap (hret u humem) hInv st hlk hdg'
              (executeTaskWithRetries cfg u st q tr) rfl hsucc'
              (markDependentsAsSkipped u.id
                (setState states u.id (executeTaskWithRetries cfg u st q tr).state)
                (executeTaskWithRetries cfg u st q tr).trace) rfl
            exact ⟨true,
              (markDependentsAsSkipped u.id
                (setState states u.id (executeTaskWithRetries cfg u st q tr).state)
                (executeTaskWithRetries cfg u st q tr).trace).1,
              (executeTaskWithRetries cfg u st q tr).queue,
              (markDependentsAsSkipped u.id
                (setState states u.id (executeTaskWithRetries cfg u st q tr).state)
                (executeTaskWithRetries cfg u st q tr).trace).2,
              fun l => executeTasksAux_cons_fail cfg u l flag states q tr st hlk hdg' hsucc',
              hI, hF⟩
      obtain ⟨flag1, states1, q1, tr1, hredstep, hI1, hF1⟩ := hstep
      cases r1 with
      | nil =>
        have h2 : r2 = u :: rest := by simpa using hsplit.symm
        subst h2
        exact ⟨hInv, fun x stx hx _ => hx⟩
      | cons v r1' =>
        rw [List.cons_append] at hsplit
        have hvu : u = v := (List.cons.injEq u rest v (r1' ++ r2)).mp hsplit |>.1
        have hrest' : rest = r1' ++ r2 := (List.cons.injEq u rest v (r1' ++ r2)).mp hsplit |>.2
        subst hvu
        rw [hredstep r1']
        have hwf' : wf = (done ++ [u]) ++ rest := by
          rw [hwf, List.append_assoc]
          rfl
        obtain ⟨hI2, hF2⟩ := ih (done ++ [u]) flag1 states1 q1 tr1 hwf' hI1 r1' r2 hrest'
        refine ⟨hI2, ?_⟩
        intro x stx hx ht
        exact hF2 x stx (hF1 x stx hx ht) ht

end WorkflowEngine

namespace WorkflowEngine

/-- The trace accumulated by `run` when all four pre-execution stages pass:
no events or handler calls yet, four completed stages. -/
def trReady : Trace :=
  { events := []
    handlerCalls := []
    steps := [OrchestratorStep.validatedWorkflow, OrchestratorStep.initializedTaskStates,
      OrchestratorStep.checkedCircularDependencies, OrchestratorStep.checkedDependencies] }

theorem depGuard_nil (wf : List Task) : DepGuard wf [] := by
  intro t ht d hd l ev r hspl hty hid
  exfalso
  have hlen := congrArg List.length hspl
  simp at hlen
  omega

theorem init_entry (cfg : WorkflowEngineConfig) (wf : List Task)
    (hnd : (wf.map Task.id).Nodup) (x : String) (st : TaskState)
    (h : lookupState (initializeTaskStates cfg wf) x = some st) :
    ∃ t ∈ wf, t.id = x ∧ st = mkInitState cfg wf t := by
  rw [init_lookup cfg wf hnd x] at h
  cases hf : wf.find? (fun t => t.id == x) with
  | none =>
    rw [hf] at h
    exact absurd h (by simp)
  | some t =>
    rw [hf] at h
    have htm := List.mem_of_find?_eq_some hf
    have htid : t.id = x := by simpa using List.find?_some hf
    exact ⟨t, htm, htid, (Option.some.inj h).symm⟩

theorem init_isSome (cfg : WorkflowEngineConfig) (wf : List Task)
    (hnd : (wf.map Task.id).Nodup) (x : String) :
    (lookupState (initializeTaskStates cfg wf) x).isSome = true ↔ x ∈ wf.map Task.id := by
  rw [init_lookup cfg wf hnd x]
  cases hf : wf.find? (fun t => t.id == x) with
  | none =>
    simp only [Option.isSome_none]
    constructor
    · intro h
      exact absurd h (by simp)
    · intro h
      obtain ⟨t, htm, htid⟩ := List.mem_map.mp h
      have := List.find?_eq_none.mp hf t htm
      simp [htid] at this
  | some t =>
    simp only [Option.isSome_some, true_iff]
    have htm := List.mem_of_find?_eq_some hf
    have htid : t.id = x := by simpa using List.find?_some hf
    exact htid ▸ List.mem_map_of_mem Task.id htm

theorem execInv_init (cfg : WorkflowEngineConfig) (wf : List Task)
    (hnd : (wf.map Task.id).Nodup) :
    ExecInv cfg wf wf (initializeTaskStates cfg wf)
      ⟨[], cfg.maxConcurrentTasks⟩ trReady false := by
  refine ⟨?_, ?_, ?_, ?_, rfl, ?_, ?_, ?_, ?_, ?_, ?_, ?_, ?_⟩
  · exact init_isSome cfg wf hnd
  · intro x st hx
    obtain ⟨t, htm, htid, hst⟩ := init_entry cfg wf hnd x st hx
    rw [hst, ← htid]
    exact ⟨rfl, rfl⟩
  · exact init_length cfg wf hnd
  · rw [init_keys cfg wf hnd]
    exact hnd
  · -- fresh
    intro t ht
    have hsome : (lookupState (initializeTaskStates cfg wf) t.id).isSome = true :=
      (init_isSome cfg wf hnd t.id).mpr (List.mem_map_of_mem Task.id ht)
    obtain ⟨st, hst⟩ := Option.isSome_iff_exists.mp hsome
    obtain ⟨t', htm', htid', hst'⟩ := init_entry cfg wf hnd t.id st hst
    refine ⟨st, hst, Or.inl (by rw [hst']; rfl), by rw [hst']; rfl, ?_⟩
    intro hsk
    rw [hst'] at hsk
    exact absurd hsk (fun h => Status.noConfusion h)
  · -- freshEv
    intro t _
    exact ⟨fun e he => absurd he (List.not_mem_nil e),
      fun c hc => absurd hc (List.not_mem_nil c)⟩
  · -- doneTerminal
    intro t htw htnr
    exact absurd htw htnr
  · -- flagIff
    constructor
    · intro h
      exact absurd h (fun hh => Bool.noConfusion hh)
    · rintro ⟨x, stx, hx, hfx⟩
      obtain ⟨t, htm, htid, hst⟩ := init_entry cfg wf hnd x stx hx
      rw [hst] at hfx
      exact absurd hfx (fun h => Status.noConfusion h)
  · -- skipSound
    intro t htw htnr
    exact absurd htw htnr
  · -- completedEv
    intro x stx hx hcx
    obtain ⟨t, htm, htid, hst⟩ := init_entry cfg wf hnd x stx hx
    rw [hst] at hcx
    exact absurd hcx (fun h => Status.noConfusion h)
  · exact depGuard_nil wf
  · exact pairedEvents_nil

end WorkflowEngine

namespace WorkflowEngine

theorem run_ok_parts (cfg : WorkflowEngineConfig) (wf : List Task) (res : WorkflowResult)
    (h : (run cfg wf).1 = Except.ok res) :
    (validateWorkflow wf).isValid = true ∧
    res.status = (if (executeTasksAux cfg wf false (initializeTaskStates cfg wf)
        ⟨[], cfg.maxConcurrentTasks⟩ trReady).hasFailedTasks then RunStatus.failed
      else RunStatus.completed) ∧
    res.tasks = (executeTasksAux cfg wf false (initializeTaskStates cfg wf)
        ⟨[], cfg.maxConcurrentTasks⟩ trReady).states ∧
    res.completedTasks = countStatus (executeTasksAux cfg wf false
        (initializeTaskStates cfg wf) ⟨[], cfg.maxConcurrentTasks⟩ trReady).states
        Status.completed ∧
    res.failedTasks = countStatus (executeTasksAux cfg wf false
        (initializeTaskStates cfg wf) ⟨[], cfg.maxConcurrentTasks⟩ trReady).states
        Status.failed ∧
    res.totalTasks = wf.length ∧
    (run cfg wf).2.events = (executeTasksAux cfg wf false (initializeTaskStates cfg wf)
        ⟨[], cfg.maxConcurrentTasks⟩ trReady).trace.events ∧
    (run cfg wf).2.handlerCalls = (executeTasksAux cfg wf false
        (initializeTaskStates cfg wf) ⟨[], cfg.maxConcurrentTasks⟩ trReady).trace.handlerCalls
    := by
  by_cases hv : (validateWorkflow wf).isValid = true
  · cases hc : validateCircularDependencies wf with
    | some e =>
      simp only [run, hv, if_true, hc] at h
      exact absurd h (by simp)
    | none =>
      cases hd : validateDependencies wf with
      | some e =>
        simp only [run, hv, if_true, hc, hd] at h
        exact absurd h (by simp)
      | none =>
        simp only [run, hv, if_true, hc, hd] at h
        have hres := Except.ok.inj h
        simp only [run, hv, if_true, hc, hd]
        rw [← hres]
        exact ⟨trivial, rfl, rfl, rfl, rfl, rfl, rfl, rfl⟩
  · simp only [run] at h
    rw [if_neg hv] at h
    exact absurd h (by simp)

end WorkflowEngine

namespace WorkflowEngine

theorem run_inv_upto (cfg : WorkflowEngineConfig) (wf : List Task)
    (hvalid : (validateWorkflow wf).isValid = true)
    (hdef : 0 ≤ cfg.defaultRetries) (hcap : 1 ≤ cfg.maxConcurrentTasks)
    (r1 r2 : List Task) (hsplit : wf = r1 ++ r2) :
    ExecInv cfg wf r2
      (executeTasksAux cfg r1 false (initializeTaskStates cfg wf)
        ⟨[], cfg.maxConcurrentTasks⟩ trReady).states
      (executeTasksAux cfg r1 false (initializeTaskStates cfg wf)
        ⟨[], cfg.maxConcurrentTasks⟩ trReady).queue
      (executeTasksAux cfg r1 false (initializeTaskStates cfg wf)
        ⟨[], cfg.maxConcurrentTasks⟩ trReady).trace
      (executeTasksAux cfg r1 false (initializeTaskStates cfg wf)
        ⟨[], cfg.maxConcurrentTasks⟩ trReady).hasFailedTasks := by
  have hnd := nodup_of_valid wf hvalid
  have hret : ∀ t ∈ wf, 0 ≤ t.retries.getD cfg.defaultRetries := by
    intro t ht
    cases hrt : t.retries with
    | none => simpa using hdef
    | some rr => simpa using retries_nonneg_of_valid wf t ht hvalid rr hrt
  exact (executeTasksAux_master cfg wf hnd hret hcap wf [] false
    (initializeTaskStates cfg wf) ⟨[], cfg.maxConcurrentTasks⟩ trReady rfl
    (execInv_init cfg wf hnd) r1 r2 hsplit).1

theorem run_frozen_suffix (cfg : WorkflowEngineConfig) (wf : List Task)
    (hvalid : (validateWorkflow wf).isValid = true)
    (hdef : 0 ≤ cfg.defaultRetries) (hcap : 1 ≤ cfg.maxConcurrentTasks)
    (r1 r2 : List Task) (hsplit : wf = r1 ++ r2) :
    Frozen
      (executeTasksAux cfg r1 false (initializeTaskStates cfg wf)
        ⟨[], cfg.maxConcurrentTasks⟩ trReady).states
      (executeTasksAux cfg wf false (initializeTaskStates cfg wf)
        ⟨[], cfg.maxConcurrentTasks⟩ trReady).states := by
  have hnd := nodup_of_valid wf hvalid
  have hret : ∀ t ∈ wf, 0 ≤ t.retries.getD cfg.defaultRetries := by
    intro t ht
    cases hrt : t.retries with
    | none => simpa using hdef
    | some rr => simpa using retries_nonneg_of_valid wf t ht hvalid rr hrt
  have hinv1 := run_inv_upto cfg wf hvalid hdef hcap r1 r2 hsplit
  have h2 := (executeTasksAux_master cfg wf hnd hret hcap r2 r1
    (executeTasksAux cfg r1 false (initializeTaskStates cfg wf)
      ⟨[], cfg.maxConcurrentTasks⟩ trReady).hasFailedTasks
    (executeTasksAux cfg r1 false (initializeTaskStates cfg wf)
      ⟨[], cfg.maxConcurrentTasks⟩ trReady).states
    (executeTasksAux cfg r1 false (initializeTaskStates cfg wf)
      ⟨[], cfg.maxConcurrentTasks⟩ trReady).queue
    (executeTasksAux cfg r1 false (initializeTaskStates cfg wf)
      ⟨[], cfg.maxConcurrentTasks⟩ trReady).trace hsplit hinv1 r2 [] (by simp)).2
  rw [hsplit] at h2 ⊢
  rw [executeTasksAux_append cfg r1 r2 false (initializeTaskStates cfg (r1 ++ r2))
    ⟨[], cfg.maxConcurrentTasks⟩ trReady]
  exact h2

end WorkflowEngine

namespace WorkflowEngine

theorem run_events (cfg : WorkflowEngineConfig) (wf : List Task) :
    ((run cfg wf).2.events = [] ∧ (run cfg wf).2.handlerCalls = []) ∨
    ((validateWorkflow wf).isValid = true ∧
     (run cfg wf).2.events = (executeTasksAux cfg wf false (initializeTaskStates cfg wf)
        ⟨[], cfg.maxConcurrentTasks⟩ trReady).trace.events ∧
     (run cfg wf).2.handlerCalls = (executeTasksAux cfg wf false
        (initializeTaskStates cfg wf) ⟨[], cfg.maxConcurrentTasks⟩
        trReady).trace.handlerCalls) := by
  by_cases hv : (validateWorkflow wf).isValid = true
  · cases hc : validateCircularDependencies wf with
    | some e =>
      left
      constructor <;> simp only [run, hv, if_true, hc]
    | none =>
      cases hd : validateDependencies wf with
      | some e =>
        left
        constructor <;> simp only [run, hv, if_true, hc, hd]
      | none =>
        right
        refine ⟨hv, ?_, ?_⟩ <;> (simp only [run, hv, if_true, hc, hd]; rfl)
  · left
    constructor <;> (show _ = _; unfold run; rw [if_neg hv])
    
/-- The successful `WorkflowResult` of a run (dummy on an error, which callers
exclude). -/
def runOkRes (cfg : WorkflowEngineConfig) (wf : List Task) : WorkflowResult :=
  match (run cfg wf).1 with
  | Except.ok r => r
  | Except.error _ => ⟨RunStatus.failed, [], 0, 0, 0⟩

/-- A task whose handler always rejects, with a zero retry budget. -/
def taskFailA : Task :=
  { id := "A", handler := fun _ => HandlerResult.settles 0 (Outcome.err "boom"),
    retries := some 0 }

/-- A task depending on `taskFailA`. -/
def taskDepB : Task := { id := "B", handler := okHandler, dependencies := some ["A"] }

/-- A task depending on `taskDepB`. -/
def taskDepC : Task := { id := "C", handler := okHandler, dependencies := some ["B"] }

/-- A three-task workflow whose root task fails. -/
def wfFailW : List Task := [taskFailA, taskDepB, taskDepC]

/-- Chain A <- B <- C, all handlers succeeding on the first attempt. -/
def taskChainA : Task := { id := "A", handler := okHandler }

def taskChainB : Task := { id := "B", handler := okHandler, dependencies := some ["A"] }

def taskChainC : Task := { id := "C", handler := okHandler, dependencies := some ["B"] }

def wfChainABC : List Task := [taskChainA, taskChainB, taskChainC]

end WorkflowEngine

namespace WorkflowEngine

/-- C3: for every validation-passing workflow on which `run` returns a
`WorkflowResult` (positive concurrency bound, non-negative default retry
budget), the overall status is FAILED iff at least one task's final status is
FAILED; in particular SKIPPED tasks alone leave the overall status
COMPLETED. -/
theorem run_status_failed_iff_task_failed (cfg : WorkflowEngineConfig) (wf : List Task)
    (res : WorkflowResult)
    (hdef : 0 ≤ cfg.defaultRetries) (hcap : 1 ≤ cfg.maxConcurrentTasks)
    (hrun : (run cfg wf).1 = Except.ok res) :
    res.status = RunStatus.failed ↔
      ∃ t ∈ wf, ∃ st, lookupState res.tasks t.id = some st ∧
        st.status = Status.failed := by
  obtain ⟨hv, hst, htasks, hcomp, hfail, htot, hev, hca⟩ := run_ok_parts cfg wf res hrun
  have hinv := run_inv_upto cfg wf hv hdef hcap wf [] (by simp)
  constructor
  · intro hfailed
    have hflag : (executeTasksAux cfg wf false (initializeTaskStates cfg wf)
        ⟨[], cfg.maxConcurrentTasks⟩ trReady).hasFailedTasks = true := by
      by_contra hh
      have hff : (executeTasksAux cfg wf false (initializeTaskStates cfg wf)
          ⟨[], cfg.maxConcurrentTasks⟩ trReady).hasFailedTasks = false := by
        simpa using hh
      rw [hff] at hst
      simp only [Bool.false_eq_true, if_false] at hst
      rw [hst] at hfailed
      exact RunStatus.noConfusion hfailed
    obtain ⟨x, stx, hx, hfx⟩ := hinv.flagIff.mp hflag
    have hxmem : x ∈ wf.map Task.id := (hinv.keys x).mp (by simp [hx])
    obtain ⟨t, htw, htid⟩ := List.mem_map.mp hxmem
    refine ⟨t, htw, stx, ?_, hfx⟩
    rw [htasks, htid]
    exact hx
  · rintro ⟨t, htw, st, hx, hfx⟩
    rw [htasks] at hx
    have hflag := hinv.flagIff.mpr ⟨t.id, st, hx, hfx⟩
    rw [hflag] at hst
    simpa using hst

theorem run_status_failed_iff_task_failed_witness :
    (runOkRes cfgDefault wfFailW).status = RunStatus.failed ↔
      ∃ t ∈ wfFailW, ∃ st, lookupState (runOkRes cfgDefault wfFailW).tasks t.id = some st ∧
        st.status = Status.failed :=
  run_status_failed_iff_task_failed cfgDefault wfFailW (runOkRes cfgDefault wfFailW)
    (by decide) (by decide) rfl

end WorkflowEngine

namespace WorkflowEngine

/-- C4: in a returned run, a task that lists among its dependencies a task id
whose final state is FAILED (or SKIPPED, which carries the cascade one step
further) ends SKIPPED with `attempts = 0`, no STARTED event is ever emitted
for it, and its handler is never invoked. -/
theorem failed_dependency_skips_dependent (cfg : WorkflowEngineConfig) (wf : List Task)
    (res : WorkflowResult)
    (hdef : 0 ≤ cfg.defaultRetries) (hcap : 1 ≤ cfg.maxConcurrentTasks)
    (hrun : (run cfg wf).1 = Except.ok res)
    (b : Task) (hb : b ∈ wf) (a : String) (ha : a ∈ b.dependencies.getD [])
    (sa : TaskState) (hsa : lookupState res.tasks a = some sa)
    (hfa : sa.status = Status.failed ∨ sa.status = Status.skipped) :
    ∃ sb, lookupState res.tasks b.id = some sb ∧ sb.status = Status.skipped ∧
      sb.attempts = 0 ∧
      (∀ e ∈ (run cfg wf).2.events, e.taskId = b.id → e.type ≠ EventType.started) ∧
      (∀ c ∈ (run cfg wf).2.handlerCalls, c.1 ≠ b.id) := by
  obtain ⟨hv, hst, htasks, hcomp, hfail, htot, hev, hca⟩ := run_ok_parts cfg wf res hrun
  have hinv := run_inv_upto cfg wf hv hdef hcap wf [] (by simp)
  rw [htasks] at hsa
  have hbsome : (lookupState (executeTasksAux cfg wf false (initializeTaskStates cfg wf)
      ⟨[], cfg.maxConcurrentTasks⟩ trReady).states b.id).isSome = true :=
    (hinv.keys b.id).mpr (List.mem_map_of_mem Task.id hb)
  obtain ⟨sb, hsb⟩ := Option.isSome_iff_exists.mp hbsome
  have hprem : ∃ d ∈ b.dependencies.getD [], ∀ sd,
      lookupState (executeTasksAux cfg wf false (initializeTaskStates cfg wf)
        ⟨[], cfg.maxConcurrentTasks⟩ trReady).states d = some sd →
      sd.status ≠ Status.completed := by
    refine ⟨a, ha, ?_⟩
    intro sd hsd hc
    rw [hsa] at hsd
    have hse : sa = sd := Option.some.inj hsd
    rw [← hse] at hc
    rcases hfa with hf | hf <;> (rw [hf] at hc; exact Status.noConfusion hc)
  obtain ⟨h1, h2, h3, h4⟩ := hinv.skipSound b hb (by simp) sb hsb hprem
  refine ⟨sb, by rw [htasks]; exact hsb, h1, h2, ?_, ?_⟩
  · intro e he hid
    rw [hev] at he
    exact h3 e he hid
  · intro c hc
    rw [hca] at hc
    exact h4 c hc

theorem failed_dependency_skips_dependent_witness :
    ∃ sb, lookupState (runOkRes cfgDefault wfFailW).tasks taskDepB.id = some sb ∧
      sb.status = Status.skipped ∧ sb.attempts = 0 ∧
      (∀ e ∈ (run cfgDefault wfFailW).2.events,
        e.taskId = taskDepB.id → e.type ≠ EventType.started) ∧
      (∀ c ∈ (run cfgDefault wfFailW).2.handlerCalls, c.1 ≠ taskDepB.id) :=
  failed_dependency_skips_dependent cfgDefault wfFailW (runOkRes cfgDefault wfFailW)
    (by decide) (by decide) rfl taskDepB
    (List.mem_cons_of_mem taskFailA (List.mem_cons_self taskDepB [taskDepC]))
    "A" (by decide)
    ((lookupState (runOkRes cfgDefault wfFailW).tasks "A").getD
      ⟨"A", Status.pending, 0, 0, none, none, [], []⟩)
    (by rfl) (by decide)

end WorkflowEngine

namespace WorkflowEngine

/-- C6: in a returned run every task's final state carries exactly one
terminal status (COMPLETED, FAILED or SKIPPED), the counts satisfy
`completedTasks + failedTasks + skippedTasks = totalTasks`, and a state that
is terminal after any prefix of the task loop is unchanged in the final
result. -/
theorem run_terminal_accounting (cfg : WorkflowEngineConfig) (wf : List Task)
    (res : WorkflowResult)
    (hdef : 0 ≤ cfg.defaultRetries) (hcap : 1 ≤ cfg.maxConcurrentTasks)
    (hrun : (run cfg wf).1 = Except.ok res) :
    (∀ t ∈ wf, ∃ st, lookupState res.tasks t.id = some st ∧
      (st.status = Status.completed ∨ st.status = Status.failed ∨
        st.status = Status.skipped)) ∧
    res.completedTasks + res.failedTasks + countStatus res.tasks Status.skipped =
      res.totalTasks ∧
    (∀ k x st,
      lookupState (executeTasksAux cfg (wf.take k) false (initializeTaskStates cfg wf)
        ⟨[], cfg.maxConcurrentTasks⟩ trReady).states x = some st →
      (st.status = Status.completed ∨ st.status = Status.failed ∨
        st.status = Status.skipped) →
      lookupState res.tasks x = some st) := by
  obtain ⟨hv, hst, htasks, hcomp, hfail, htot, hev, hca⟩ := run_ok_parts cfg wf res hrun
  have hinv := run_inv_upto cfg wf hv hdef hcap wf [] (by simp)
  refine ⟨?_, ?_, ?_⟩
  · intro t htw
    obtain ⟨st, hlk2, hterm⟩ := hinv.doneTerminal t htw (by simp)
    refine ⟨st, ?_, hterm⟩
    rw [htasks]
    exact hlk2
  · have hterms : ∀ p ∈ (executeTasksAux cfg wf false (initializeTaskStates cfg wf)
        ⟨[], cfg.maxConcurrentTasks⟩ trReady).states,
        p.2.status = Status.completed ∨ p.2.status = Status.failed ∨
          p.2.status = Status.skipped := by
      intro p hp
      have hl := lookup_of_mem_keysNodup _ hinv.keysNodup p hp
      have hkm := (hinv.keys p.1).mp (by simp [hl])
      obtain ⟨t, htw, htid⟩ := List.mem_map.mp hkm
      obtain ⟨st, hlk2, hterm⟩ := hinv.doneTerminal t htw (by simp)
      rw [htid, hl] at hlk2
      rw [Option.some.inj hlk2]
      exact hterm
    rw [hcomp, hfail, htot, htasks]
    exact (countStatus_partition _ hterms).trans hinv.len
  · intro k x st hlkk hterm
    have hfr := run_frozen_suffix cfg wf hv hdef hcap (wf.take k) (wf.drop k)
      (List.take_append_drop k wf).symm
    rw [htasks]
    exact hfr x st hlkk hterm

theorem run_terminal_accounting_witness :
    (∀ t ∈ wfChainABC, ∃ st,
      lookupState (runOkRes cfgDefault wfChainABC).tasks t.id = some st ∧
      (st.status = Status.completed ∨ st.status = Status.failed ∨
        st.status = Status.skipped)) ∧
    (runOkRes cfgDefault wfChainABC).completedTasks +
      (runOkRes cfgDefault wfChainABC).failedTasks +
      countStatus (runOkRes cfgDefault wfChainABC).tasks Status.skipped =
      (runOkRes cfgDefault wfChainABC).totalTasks ∧
    (∀ k x st,
      lookupState (executeTasksAux cfgDefault (wfChainABC.take k) false
        (initializeTaskStates cfgDefault wfChainABC)
        ⟨[], cfgDefault.maxConcurrentTasks⟩ trReady).states x = some st →
      (st.status = Status.completed ∨ st.status = Status.failed ∨
        st.status = Status.skipped) →
      lookupState (runOkRes cfgDefault wfChainABC).tasks x = some st) :=
  run_terminal_accounting cfgDefault wfChainABC (runOkRes cfgDefault wfChainABC)
    (by decide) (by decide) rfl

end WorkflowEngine

namespace WorkflowEngine

/-- C7: the three-task chain A -> B -> C with all handlers succeeding on the
first attempt emits exactly STARTED(A), COMPLETED(A), STARTED(B),
COMPLETED(B), STARTED(C), COMPLETED(C) in that order; and on every run
(positive concurrency bound, non-negative default retries) each outcome event
of an attempt is preceded by the STARTED event of the same task and attempt,
and a dependent's STARTED event is always preceded by a COMPLETED event of
each of its declared dependencies. -/
theorem run_event_ordering (cfg : WorkflowEngineConfig) (wf : List Task)
    (hdef : 0 ≤ cfg.defaultRetries) (hcap : 1 ≤ cfg.maxConcurrentTasks) :
    (run cfgDefault wfChainABC).2.events =
      [⟨EventType.started, "A", 1, "", none⟩,
       ⟨EventType.completed, "A", 1, "", some "ok"⟩,
       ⟨EventType.started, "B", 1, "", none⟩,
       ⟨EventType.completed, "B", 1, "", some "ok"⟩,
       ⟨EventType.started, "C", 1, "", none⟩,
       ⟨EventType.completed, "C", 1, "", some "ok"⟩] ∧
    PairedEvents (run cfg wf).2.events ∧ DepGuard wf (run cfg wf).2.events := by
  refine ⟨by decide, ?_, ?_⟩
  · rcases run_events cfg wf with ⟨h, -⟩ | ⟨hv, h, -⟩
    · rw [h]
      exact pairedEvents_nil
    · rw [h]
      exact (run_inv_upto cfg wf hv hdef hcap wf [] (by simp)).paired
  · rcases run_events cfg wf with ⟨h, -⟩ | ⟨hv, h, -⟩
    · rw [h]
      exact depGuard_nil wf
    · rw [h]
      exact (run_inv_upto cfg wf hv hdef hcap wf [] (by simp)).depGuard

theorem run_event_ordering_witness :
    (run cfgDefault wfChainABC).2.events =
      [⟨EventType.started, "A", 1, "", none⟩,
       ⟨EventType.completed, "A", 1, "", some "ok"⟩,
       ⟨EventType.started, "B", 1, "", none⟩,
       ⟨EventType.completed, "B", 1, "", some "ok"⟩,
       ⟨EventType.started, "C", 1, "", none⟩,
       ⟨EventType.completed, "C", 1, "", some "ok"⟩] ∧
    PairedEvents (run cfgDefault wfChainABC).2.events ∧
    DepGuard wfChainABC (run cfgDefault wfChainABC).2.events :=
  run_event_ordering cfgDefault wfChainABC (by decide) (by decide)

end WorkflowEngine
